import Mathlib

/-!
Verification development for the `ltick/go-ini` INI parsing library.

The live pipeline of the repository is translated as a shallow embedding:
  * scanner (`scannerc.go`, byte stream to tokens),
  * parser state machine (token stream to events),
  * tree builder and merge engine (`decode.go`, events to a `node` tree),
  * the `Unmarshal` entry point (`ini.go`).

Modelling conventions:
  * Go byte strings are `List Nat` (one entry per byte; all concrete inputs
    are ASCII).  The reader layer (`readerc.go`) decodes and re-encodes
    UTF-8 and appends a NUL byte at end of input; for valid input it is the
    identity on the byte stream, so the scanner works on `input ++ [0]`.
  * Source positions (`ini_mark_t`) are kept in the scanner state, where
    they are load bearing (column 0 decides section starts).  Tokens,
    events and tree nodes drop their mark fields: in the source they are
    used only for diagnostics and never influence the shape of the result.
  * Loops of the Go code are translated as fuel-indexed structural
    recursions so that every definition is executable and reduces inside
    the kernel.  Fuel is always chosen large enough at the call sites; the
    fuel-zero fallbacks are unreachable on real inputs.
  * Mutable heap state (pointer mutation in `merge_node`) is modelled twice:
    as pure value passing for the functional claims, and as an explicit
    arena (heap) for the frame-effect claim about inheritance never
    mutating the parent section.
-/

set_option maxRecDepth 40000

namespace IniSpec

/-! ## Bytes and byte strings -/

/-- Byte strings of the Go code are lists of byte values. -/
abbrev Bytes := List Nat

/-- ASCII string literal to byte string. -/
def strBytes (s : String) : Bytes := s.data.map Char.toNat

/-- The reserved section name, `const DEFAULT_SECTION = "default"` (inih.go). -/
def DEFAULT_SECTION : Bytes := strBytes "default"

/-! ## Character classes

Modelled from the spec: the character-class helper file of the repository
(the `is_alpha`, `is_blank`, `is_break`, `is_z`, `is_bom`, `is_crlf`,
`is_breakz`, `is_hex`, `as_hex` and `width` helpers used throughout
`scannerc.go`) is not under `src/`.  The definitions below follow the
spec (§4.1: blanks are space and tab; line breaks end lines; a NUL byte
marks end of input, as appended by `readerc.go`; key characters are
`[0-9a-zA-Z_-]`, also stated in the comment in `ini_parser_fetch_key`)
and the standard libyaml-style helper set this scanner is written
against. -/

/-- Key/section-name characters: `0-9`, `A-Z`, `a-z`, `_`, `-`. -/
def is_alpha (b : Nat) : Bool :=
  (48 ≤ b && b ≤ 57) || (65 ≤ b && b ≤ 90) || (97 ≤ b && b ≤ 122) || b == 95 || b == 45

/-- Blank characters: space and tab. -/
def is_blank (b : Nat) : Bool := b == 32 || b == 9

/-- Hexadecimal digits. -/
def is_hex (b : Nat) : Bool :=
  (48 ≤ b && b ≤ 57) || (65 ≤ b && b ≤ 70) || (97 ≤ b && b ≤ 102)

/-- Value of a hexadecimal digit. -/
def as_hex (b : Nat) : Nat :=
  if 65 ≤ b && b ≤ 70 then b - 55
  else if 97 ≤ b && b ≤ 102 then b - 87
  else b - 48

/-- Width in bytes of the UTF-8 sequence led by byte `b` (cf. the decoding
table in `readerc.go`); 0 for an invalid leading octet. -/
def width (b : Nat) : Nat :=
  if b &&& 0x80 == 0x00 then 1
  else if b &&& 0xE0 == 0xC0 then 2
  else if b &&& 0xF0 == 0xE0 then 3
  else if b &&& 0xF8 == 0xF0 then 4
  else 0

/-- Head byte of the remaining input (the scanner buffer always ends with
the NUL byte put there by the reader, so a default of 0 is faithful). -/
def hd (rest : Bytes) : Nat := rest.headD 0

/-- Byte at offset `i` of the remaining input. -/
def hdAt (rest : Bytes) (i : Nat) : Nat := (rest.drop i).headD 0

/-- End of input: the NUL byte appended by the reader. -/
def is_z (rest : Bytes) : Bool := hd rest == 0

/-- CR LF. -/
def is_crlf (rest : Bytes) : Bool := hd rest == 13 && hdAt rest 1 == 10

/-- Line break: CR, LF, NEL (C2 85), LS (E2 80 A8) or PS (E2 80 A9). -/
def is_break (rest : Bytes) : Bool :=
  hd rest == 13 || hd rest == 10 ||
  (hd rest == 0xC2 && hdAt rest 1 == 0x85) ||
  (hd rest == 0xE2 && hdAt rest 1 == 0x80 && (hdAt rest 2 == 0xA8 || hdAt rest 2 == 0xA9))

/-- Line break or end of input. -/
def is_breakz (rest : Bytes) : Bool := is_break rest || is_z rest

/-- UTF-8 byte order mark. -/
def is_bom (rest : Bytes) : Bool :=
  hd rest == 0xEF && hdAt rest 1 == 0xBB && hdAt rest 2 == 0xBF

/-! ## Marks and scanner state (`ini_mark_t`, the reader/scanner part of
`ini_parser_t`) -/

/-- `ini_mark_t`: position index, line and column. -/
structure Mark where
  index : Nat
  line : Nat
  column : Nat
deriving DecidableEq

/-- The scanner's view of `ini_parser_t`: the not yet consumed bytes of the
decoded buffer (always NUL terminated), the current mark, and the
`document_start_produced` flag.  (`document_end_produced`, the token queue
and the parser fields live in the staged token/parser layers.) -/
structure SState where
  rest : Bytes
  mark : Mark
  document_start_produced : Bool
deriving DecidableEq

/-- `skip` (scannerc.go): advance over one character. -/
def skipC (s : SState) : SState :=
  { s with rest := s.rest.drop (width (hd s.rest)),
           mark := ⟨s.mark.index + 1, s.mark.line, s.mark.column + 1⟩ }

/-- `skip_line` (scannerc.go): advance over one line break. -/
def skip_line (s : SState) : SState :=
  if is_crlf s.rest then
    { s with rest := s.rest.drop 2,
             mark := ⟨s.mark.index + 2, s.mark.line + 1, 0⟩ }
  else if is_break s.rest then
    { s with rest := s.rest.drop (width (hd s.rest)),
             mark := ⟨s.mark.index + 1, s.mark.line + 1, 0⟩ }
  else s

/-- `read` (scannerc.go): copy one character into the accumulator and
advance. -/
def readC (s : SState) (acc : Bytes) : SState × Bytes :=
  let w := width (hd s.rest)
  ({ s with rest := s.rest.drop w,
            mark := ⟨s.mark.index + 1, s.mark.line, s.mark.column + 1⟩ },
   acc ++ s.rest.take w)

/-! ## Tokens (`ini_token_t`) -/

/-- `ini_token_type_t` (inih.go). -/
inductive TokenType where
  | NO_TOKEN
  | DOCUMENT_START_TOKEN
  | DOCUMENT_END_TOKEN
  | SECTION_START_TOKEN
  | SECTION_INHERIT_TOKEN
  | SECTION_ENTRY_TOKEN
  | KEY_TOKEN
  | VALUE_TOKEN
  | SCALAR_TOKEN
  | MAP_TOKEN
deriving DecidableEq

/-- `ini_scalar_style_t` (inih.go). -/
inductive ScalarStyle where
  | ANY
  | PLAIN
  | SINGLE_QUOTED
  | DOUBLE_QUOTED
deriving DecidableEq

/-- `ini_token_t`, with the diagnostic marks dropped. -/
structure Token where
  typ : TokenType
  value : Bytes
  style : ScalarStyle
deriving DecidableEq

/-- Token constructor with the default (ANY) style, matching Go's zero
value for token fields that a fetcher does not set. -/
def mkToken (t : TokenType) (v : Bytes) : Token := ⟨t, v, .ANY⟩

/-- `ini_scanner_error`-shaped failure: context, its mark, problem and its
mark (`problem_mark` is the current mark at the failure point). -/
structure ScanErr where
  context : Bytes
  context_mark : Mark
  problem : Bytes
  problem_mark : Mark
deriving DecidableEq

end IniSpec

namespace IniSpec

/-- Error used when a fuel bound is exhausted (no Go counterpart; the fuel
given at call sites always suffices on real inputs). -/
def fuelErr (s : SState) : ScanErr :=
  ⟨[], s.mark, strBytes "scanner fuel exhausted", s.mark⟩

/-- `bytes.Trim(s, " ")`: strip leading and trailing space bytes. -/
def trimSpaces (b : Bytes) : Bytes :=
  ((b.dropWhile (fun c => c == 32)).reverse.dropWhile (fun c => c == 32)).reverse

/-- Blank-eating loops (`for is_blank(...) { skip(...) }` in
`ini_parser_fetch_section_key`, `ini_parser_fetch_key`,
`ini_parser_fetch_value`). -/
def eat_blanks : Nat → SState → SState
  | 0, s => s
  | fuel+1, s => if is_blank (hd s.rest) then eat_blanks fuel (skipC s) else s

/-- The whitespace-eating inner loop of `ini_parser_scan_to_next_token`
(it tests the space and tab bytes literally). -/
def eat_blanks_tok : Nat → SState → SState
  | 0, s => s
  | fuel+1, s =>
    if hd s.rest == 32 || hd s.rest == 9 then eat_blanks_tok fuel (skipC s) else s

/-- The comment-eating inner loop of `ini_parser_scan_to_next_token`:
`for !is_breakz(...) { skip(...) }`. -/
def eat_comment : Nat → SState → SState
  | 0, s => s
  | fuel+1, s => if !(is_breakz s.rest) then eat_comment fuel (skipC s) else s

/-- `ini_parser_scan_to_next_token`: eat whitespace, comments (`#`/`;` to
end of line) and line breaks until a token can start. -/
def scan_to_next_token : Nat → SState → Option SState
  | 0, _ => none
  | fuel+1, s =>
    let s1 := if s.mark.column == 0 && is_bom s.rest then skipC s else s
    let s2 := eat_blanks_tok (s1.rest.length + 1) s1
    let s3 :=
      if hd s2.rest == 35 || hd s2.rest == 59 then eat_comment (s2.rest.length + 1) s2
      else s2
    if is_break s3.rest then scan_to_next_token fuel (skip_line s3) else some s3

/-- Content loop of `ini_parser_fetch_section_key`: consume key characters
up to a line break or one of `:`, `[`, `]`; any other non-alpha character
is a scan error. -/
def section_key_loop : Nat → SState → Bytes → Except ScanErr (SState × Bytes)
  | 0, s, _ => .error (fuelErr s)
  | fuel+1, s, acc =>
    if is_break s.rest then .ok (s, acc)
    else if hd s.rest == 58 || hd s.rest == 91 || hd s.rest == 93 then .ok (s, acc)
    else if !(is_alpha (hd s.rest)) then
      .error ⟨strBytes "while scanning for the section key", s.mark,
              strBytes "found character(" ++ [hd s.rest] ++
                strBytes ") that cannot start for any section key", s.mark⟩
    else
      let (s2, acc2) := readC s acc
      section_key_loop fuel s2 acc2

/-- `ini_parser_fetch_section_key`: eat blanks, then scan the plain section
name scalar. -/
def ini_parser_fetch_section_key (s : SState) : Except ScanErr (SState × Token) :=
  let s1 := eat_blanks (s.rest.length + 1) s
  (section_key_loop (s1.rest.length + 1) s1 []).map fun p =>
    (p.1, ⟨.SCALAR_TOKEN, trimSpaces p.2, .PLAIN⟩)

/-- `ini_parser_fetch_section_start`: consume `[`, emit the SECTION-START
token followed by the section name scalar token. -/
def ini_parser_fetch_section_start (s : SState) : Except ScanErr (SState × List Token) :=
  let s1 := skipC s
  (ini_parser_fetch_section_key s1).map fun p =>
    (p.1, [mkToken .SECTION_START_TOKEN (strBytes "["), p.2])

/-- `ini_parser_fetch_section_inherit`: consume `:`, emit the
SECTION-INHERIT token followed by the parent name scalar token. -/
def ini_parser_fetch_section_inherit (s : SState) : Except ScanErr (SState × List Token) :=
  let s1 := skipC s
  (ini_parser_fetch_section_key s1).map fun p =>
    (p.1, [mkToken .SECTION_INHERIT_TOKEN (strBytes ":"), p.2])

/-- `ini_parser_fetch_section_entry`: consume `]`, require a line break
right after it, emit the SECTION-ENTRY token. -/
def ini_parser_fetch_section_entry (s : SState) : Except ScanErr (SState × List Token) :=
  let s1 := skipC s
  if !(is_break s1.rest) then
    .error ⟨strBytes "while scanning for the section entry", s1.mark,
            strBytes "must have a line break before the first section key", s1.mark⟩
  else
    .ok (s1, [mkToken .SECTION_ENTRY_TOKEN (strBytes "]")])

/-- Content loop of `ini_parser_scan_plain_scalar`: consume until a line
break (which is consumed), end of input, or `=`. -/
def plain_scalar_loop : Nat → SState → Bytes → SState × Bytes
  | 0, s, acc => (s, acc)
  | fuel+1, s, acc =>
    if is_break s.rest then (skip_line s, acc)
    else if is_z s.rest then (s, acc)
    else if hd s.rest == 61 then (s, acc)
    else
      let (s2, acc2) := readC s acc
      plain_scalar_loop fuel s2 acc2

/-- `ini_parser_scan_plain_scalar`: plain scalar with trailing blanks
trimmed. -/
def ini_parser_scan_plain_scalar (s : SState) : SState × Token :=
  let p := plain_scalar_loop (s.rest.length + 1) s []
  (p.1, ⟨.SCALAR_TOKEN, trimSpaces p.2, .PLAIN⟩)

/-- Inner consumption loop of the single-quoted branch of
`ini_parser_scan_scalar`: read until the closing quote; a line break or
end of input inside the scalar fails (Go returns `false` with no problem
message set). -/
def single_quote_inner : Nat → SState → Bytes → Except ScanErr (SState × Bytes)
  | 0, s, _ => .error (fuelErr s)
  | fuel+1, s, acc =>
    if hd s.rest == 39 then .ok (s, acc)
    else if is_breakz s.rest then .error ⟨[], s.mark, [], s.mark⟩
    else
      let (s2, acc2) := readC s acc
      single_quote_inner fuel s2 acc2

/-- Inner consumption loop of the double-quoted branch of
`ini_parser_scan_scalar`. -/
def double_quote_inner : Nat → SState → Bytes → Except ScanErr (SState × Bytes)
  | 0, s, _ => .error (fuelErr s)
  | fuel+1, s, acc =>
    if hd s.rest == 34 then .ok (s, acc)
    else if is_breakz s.rest then .error ⟨[], s.mark, [], s.mark⟩
    else
      let (s2, acc2) := readC s acc
      double_quote_inner fuel s2 acc2

/-- UTF-8 encoding of a code point, as written out byte by byte at the end
of the escape-code branch of `ini_parser_scan_scalar`. -/
def utf8encode (v : Nat) : Bytes :=
  if v ≤ 0x7F then [v]
  else if v ≤ 0x7FF then [0xC0 + v / 64, 0x80 + v % 64]
  else if v ≤ 0xFFFF then [0xE0 + v / 4096, 0x80 + (v / 64) % 64, 0x80 + v % 64]
  else [0xF0 + v / 262144, 0x80 + (v / 4096) % 64, 0x80 + (v / 64) % 64, 0x80 + v % 64]

/-- Scan `k` hexadecimal digits (`(value << 4) + as_hex(...)` accumulation
in `ini_parser_scan_scalar`); `none` if a non-hex digit appears. -/
def hex_value : Bytes → Nat → Nat → Option Nat
  | _, 0, acc => some acc
  | rest, k+1, acc =>
    if is_hex (hd rest) then hex_value (rest.drop 1) k (acc * 16 + as_hex (hd rest))
    else none

/-- Skip `n` characters. -/
def skipN : Nat → SState → SState
  | 0, s => s
  | n+1, s => skipN n (skipC s)

end IniSpec

namespace IniSpec

/-- The escape-sequence branch of the double-quoted case of
`ini_parser_scan_scalar` (`case parser.buffer[parser.buffer_pos+1]`):
translate one `\\c` escape, including the `\\xHH`/`\\uHHHH`/`\\UHHHHHHHH`
code escapes. -/
def escape_seq (start_mark : Mark) (s : SState) (acc : Bytes) :
    Except ScanErr (SState × Bytes) :=
  let c := hdAt s.rest 1
  let simple : Option Bytes :=
    if c == 48 then some [0]              -- \0
    else if c == 97 then some [0x07]      -- \a
    else if c == 98 then some [0x08]      -- \b
    else if c == 116 || c == 9 then some [0x09]  -- \t or literal tab
    else if c == 110 then some [0x0A]     -- \n
    else if c == 118 then some [0x0B]     -- \v
    else if c == 102 then some [0x0C]     -- \f
    else if c == 114 then some [0x0D]     -- \r
    else if c == 101 then some [0x1B]     -- \e
    else if c == 32 then some [0x20]      -- escaped space
    else if c == 34 then some [34]        -- escaped double quote
    else if c == 39 then some [39]        -- escaped single quote
    else if c == 92 then some [92]        -- escaped backslash
    else if c == 78 then some [0xC2, 0x85]        -- \N (NEL)
    else if c == 95 then some [0xC2, 0xA0]        -- \_ (#xA0)
    else if c == 76 then some [0xE2, 0x80, 0xA8]  -- \L (LS)
    else if c == 80 then some [0xE2, 0x80, 0xA9]  -- \P (PS)
    else none
  let code_length : Nat :=
    if c == 120 then 2          -- \x
    else if c == 117 then 4     -- \u
    else if c == 85 then 8      -- \U
    else 0
  match simple with
  | some bs => .ok (skipC (skipC s), acc ++ bs)
  | none =>
    if code_length == 0 then
      .error ⟨strBytes "while parsing a quoted scalar", start_mark,
              strBytes "found unknown escape character", s.mark⟩
    else
      let s2 := skipC (skipC s)
      match hex_value s2.rest code_length 0 with
      | none =>
        .error ⟨strBytes "while parsing a quoted scalar", start_mark,
                strBytes "did not find expected hexdecimal number", s2.mark⟩
      | some v =>
        if (0xD800 ≤ v && v ≤ 0xDFFF) || 0x10FFFF < v then
          .error ⟨strBytes "while parsing a quoted scalar", start_mark,
                  strBytes "found invalid Unicode character escape code", s2.mark⟩
        else
          .ok (skipN code_length s2, acc ++ utf8encode v)

/-- Main loop of `ini_parser_scan_scalar`: quoted scalar content with
doubled-quote escaping; in the double-quoted branch also backslash escapes
and escaped line continuation.  The `found unknown escape character`
failure of the final `else` branch is returned as an error here, while the
Go code records it on the parser and keeps running; that branch is
unreachable from the fetchers, which enter this function only on a quote
character. -/
def scan_scalar_loop (single : Bool) (start_mark : Mark) :
    Nat → SState → Bytes → Except ScanErr (SState × Bytes)
  | 0, s, _ => .error (fuelErr s)
  | fuel+1, s, acc =>
    if is_z s.rest then .ok (s, acc)
    else if single then
      let step : Except ScanErr (SState × Bytes) :=
        if hd s.rest == 39 && hdAt s.rest 1 == 39 then
          .ok (skipC (skipC s), acc)
        else if hd s.rest == 39 then
          single_quote_inner (s.rest.length + 1) (skipC s) acc
        else .ok (s, acc)
      match step with
      | .error e => .error e
      | .ok (s2, acc2) =>
        if hd s2.rest == 39 then .ok (skipC s2, acc2)
        else if is_break s2.rest then .ok (skip_line s2, acc2)
        else scan_scalar_loop single start_mark fuel s2 acc2
    else if hd s.rest == 92 && is_break (s.rest.drop 1) then
      -- escaped line continuation: skip the backslash, eat the break, and
      -- end the scalar (`skip; skip_line; break`)
      .ok (skip_line (skipC s), acc)
    else
      let step : Except ScanErr (SState × Bytes) :=
        if hd s.rest == 34 && hdAt s.rest 1 == 34 then
          .ok (skipC (skipC s), acc)
        else if hd s.rest == 34 then
          double_quote_inner (s.rest.length + 1) (skipC s) acc
        else if hd s.rest == 92 then
          escape_seq start_mark s acc
        else
          .error ⟨strBytes "while parsing a scalar", start_mark,
                  strBytes "found unknown escape character", s.mark⟩
      match step with
      | .error e => .error e
      | .ok (s2, acc2) =>
        if hd s2.rest == 34 then .ok (skipC s2, acc2)
        else if is_break s2.rest then .ok (skip_line s2, acc2)
        else scan_scalar_loop single start_mark fuel s2 acc2

/-- `ini_parser_scan_scalar`: a single- or double-quoted scalar. -/
def ini_parser_scan_scalar (s : SState) (single : Bool) :
    Except ScanErr (SState × Token) :=
  (scan_scalar_loop single s.mark (s.rest.length * 2 + 8) s []).map fun p =>
    (p.1, ⟨.SCALAR_TOKEN, p.2, if single then .SINGLE_QUOTED else .DOUBLE_QUOTED⟩)

/-- `bytes.Split(value, ".")`: key segments between dot separators. -/
def splitOnDot : Bytes → List Bytes
  | [] => [[]]
  | c :: rest =>
    match splitOnDot rest with
    | g :: gs => if c == 46 then [] :: g :: gs else (c :: g) :: gs
    | [] => [[c]]

/-- Emission loop at the end of `ini_parser_fetch_key`: one KEY token and
one plain SCALAR token per dotted segment, with a MAP token between
segments; an empty segment is the `empty map key` scan error. -/
def buildKeyTokens (m : Mark) : List Bytes → Except ScanErr (List Token)
  | [] => .ok []
  | [k] =>
    if k = [] then
      .error ⟨strBytes "while scanning for the key", m, strBytes "empty map key", m⟩
    else .ok [mkToken .KEY_TOKEN [], ⟨.SCALAR_TOKEN, k, .PLAIN⟩]
  | k :: ks =>
    if k = [] then
      .error ⟨strBytes "while scanning for the key", m, strBytes "empty map key", m⟩
    else
      (buildKeyTokens m ks).map fun ts =>
        mkToken .KEY_TOKEN [] :: ⟨.SCALAR_TOKEN, k, .PLAIN⟩ ::
          ⟨.MAP_TOKEN, strBytes ".", .PLAIN⟩ :: ts

/-- The scalar-scanning branch of `ini_parser_fetch_key`: a single-quoted
key must open on a key-start character (`is_alpha` or `~`), a
double-quoted key is scanned as a quoted scalar, anything else as a plain
scalar. -/
def fetch_key_scan (s1 : SState) : Except ScanErr (SState × Token) :=
  if hd s1.rest == 39 then
    if !(is_alpha (hdAt s1.rest 1)) && !(hdAt s1.rest 1 == 126) then
      .error ⟨strBytes "while scanning for the scalar", s1.mark,
              strBytes "found character(" ++ [hdAt s1.rest 1] ++
                strBytes ") that cannot start for any key", s1.mark⟩
    else ini_parser_scan_scalar s1 true
  else if hd s1.rest == 34 then ini_parser_scan_scalar s1 false
  else .ok (ini_parser_scan_plain_scalar s1)

/-- `ini_parser_fetch_key`: eat blanks, scan a quoted or plain key scalar,
split it on dots and emit the KEY/SCALAR/MAP token run. -/
def ini_parser_fetch_key (s : SState) : Except ScanErr (SState × List Token) :=
  let s1 := eat_blanks (s.rest.length + 1) s
  match fetch_key_scan s1 with
  | .error e => .error e
  | .ok (s2, keyTok) =>
    (buildKeyTokens s2.mark (splitOnDot keyTok.value)).map fun ts => (s2, ts)

/-- `ini_parser_fetch_value`: consume `=`, emit the VALUE token, eat
blanks, then scan the quoted or plain value scalar. -/
def ini_parser_fetch_value (s : SState) : Except ScanErr (SState × List Token) :=
  let s1 := skipC s
  let valueTok := mkToken .VALUE_TOKEN (strBytes "=")
  let s2 := eat_blanks (s1.rest.length + 1) s1
  let scanned : Except ScanErr (SState × Token) :=
    if hd s2.rest == 39 then ini_parser_scan_scalar s2 true
    else if hd s2.rest == 34 then ini_parser_scan_scalar s2 false
    else .ok (ini_parser_scan_plain_scalar s2)
  scanned.map fun p => (p.1, [valueTok, p.2])

/-- `ini_parser_fetch_document_end`: force a fresh line on the mark and
emit the DOCUMENT-END token. -/
def ini_parser_fetch_document_end (s : SState) : SState × List Token :=
  let s1 :=
    if !(s.mark.column == 0) then
      { s with mark := ⟨s.mark.index, s.mark.line + 1, 0⟩ }
    else s
  (s1, [mkToken .DOCUMENT_END_TOKEN []])

/-- The token dispatch of `ini_parser_fetch_next_token` after
`ini_parser_scan_to_next_token` has positioned the scanner: end of input,
`[` only at column 0, `:`, `]`, `=`, otherwise a key. -/
def fetch_dispatch (s : SState) : Except ScanErr (SState × List Token) :=
  if is_z s.rest then .ok (ini_parser_fetch_document_end s)
  else if s.mark.column == 0 && hd s.rest == 91 then ini_parser_fetch_section_start s
  else if hd s.rest == 58 then ini_parser_fetch_section_inherit s
  else if hd s.rest == 93 then ini_parser_fetch_section_entry s
  else if hd s.rest == 61 then ini_parser_fetch_value s
  else ini_parser_fetch_key s

/-- `ini_parser_fetch_next_token`: DOCUMENT-START first, then skip to the
next token and dispatch on the character found there. -/
def ini_parser_fetch_next_token (s : SState) : Except ScanErr (SState × List Token) :=
  if !s.document_start_produced then
    .ok ({ s with document_start_produced := true },
         [mkToken .DOCUMENT_START_TOKEN []])
  else
    match scan_to_next_token (s.rest.length + 2) s with
    | none => .error (fuelErr s)
    | some s2 => fetch_dispatch s2

/-- Fetch tokens until the DOCUMENT-END token has been produced. -/
def scan_tokens_loop : Nat → SState → List Token → Except ScanErr (List Token)
  | 0, s, _ => .error (fuelErr s)
  | fuel+1, s, acc =>
    match ini_parser_fetch_next_token s with
    | .error e => .error e
    | .ok (s2, ts) =>
      if ts.any (fun t => t.typ == .DOCUMENT_END_TOKEN) then .ok (acc ++ ts)
      else scan_tokens_loop fuel s2 (acc ++ ts)

/-- The whole scanner: the token stream of an input byte string (the
reader appends the NUL terminator). -/
def ini_scan_tokens (input : Bytes) : Except ScanErr (List Token) :=
  scan_tokens_loop (input.length * 2 + 8) ⟨input ++ [0], ⟨0, 0, 0⟩, false⟩ []

end IniSpec

namespace IniSpec

/-! ## Events and the parser state machine (`src/unnamed/part_006`) -/

/-- `ini_event_type_t` (inih.go). -/
inductive EventType where
  | NO_EVENT
  | DOCUMENT_START_EVENT
  | DOCUMENT_END_EVENT
  | SECTION_INHERIT_EVENT
  | SECTION_ENTRY_EVENT
  | MAPPING_EVENT
  | SCALAR_EVENT
  | COMMENT_EVENT
deriving DecidableEq

/-- `ini_event_t`, with the marks dropped. -/
structure Event where
  typ : EventType
  value : Bytes
  tag : Bytes
  style : ScalarStyle
deriving DecidableEq

/-- Event with only a type, all other fields at their Go zero values. -/
def mkEvent (t : EventType) : Event := ⟨t, [], [], .ANY⟩

/-- `ini_parser_state_t` (inih.go), restricted to the states the
dispatcher of `ini_parser_state_machine` handles. -/
inductive PK where
  | DOCUMENT_START_STATE
  | DOCUMENT_END_STATE
  | SECTION_FIRST_START_STATE
  | SECTION_START_STATE
  | SECTION_INHERIT_STATE
  | SECTION_ENTRY_STATE
  | SECTION_KEY_STATE
  | SECTION_VALUE_STATE
deriving DecidableEq

/-- The parser's view of `ini_parser_t`: the token queue not yet consumed,
the current state, the state stack and `document_end_produced`. -/
structure PState where
  toks : List Token
  state : PK
  states : List PK
  document_end_produced : Bool
deriving DecidableEq

/-- Parser failures (`ini_parser_set_parser_error`); an empty problem
models the Go paths that return `false` without recording a problem,
which surface as `unknown problem parsing INI content` (see
`parser.fail` in decode.go). -/
structure ParseErr where
  problem : Bytes
deriving DecidableEq

/-- `peek_token`: the head of the token queue. -/
def peekT (p : PState) : Option Token := p.toks.head?

/-- `skip_token`: drop the head of the queue and record whether it was the
DOCUMENT-END token. -/
def skipT (p : PState) : PState :=
  { p with toks := p.toks.drop 1,
           document_end_produced :=
             (p.toks.head?.map (fun t => t.typ == .DOCUMENT_END_TOKEN)).getD false }

/-- `ini_parser_parse_document_start`. -/
def parse_document_start (p : PState) : Except ParseErr (Event × PState) :=
  match peekT p with
  | none => .error ⟨strBytes "did not find expected <document-start>"⟩
  | some tok =>
    if tok.typ == .DOCUMENT_START_TOKEN then
      .ok (mkEvent .DOCUMENT_START_EVENT,
           { skipT p with state := .SECTION_FIRST_START_STATE,
                          states := p.states ++ [.DOCUMENT_END_STATE] })
    else .error ⟨strBytes "did not find expected <document-start>"⟩

/-- Pop `parser.states` (`parser.state = parser.states[len-1]` followed by
truncation). -/
def popStates (p : PState) : PState :=
  { p with state := (p.states.getLast?).getD p.state,
           states := p.states.dropLast }

/-- `ini_parser_parse_section_start`: DOCUMENT-END ends the document; a
first bare KEY token opens the implicit `default` section; a
SECTION-START token yields the section name scalar event and moves to the
inherit state. -/
def parse_section_start (p : PState) (first : Bool) : Except ParseErr (Event × PState) :=
  match peekT p with
  | none =>
    .error ⟨strBytes "did not find expected <document-end> or <section-start> or <key>"⟩
  | some tok =>
    if tok.typ == .DOCUMENT_END_TOKEN then
      .ok (mkEvent .DOCUMENT_END_EVENT, popStates p)
    else if first && tok.typ == .KEY_TOKEN then
      .ok (⟨.SCALAR_EVENT, DEFAULT_SECTION, strBytes "str", .ANY⟩,
           { p with state := .SECTION_ENTRY_STATE })
    else if tok.typ == .SECTION_START_TOKEN then
      let p1 := skipT p
      match peekT p1 with
      | none => .error ⟨strBytes "did not find expected <scalar>"⟩
      | some tok2 =>
        if tok2.typ == .SCALAR_TOKEN then
          .ok (⟨.SCALAR_EVENT, tok2.value, strBytes "str", .ANY⟩,
               { skipT p1 with state := .SECTION_INHERIT_STATE })
        else .error ⟨strBytes "did not find expected <scalar>"⟩
    else .error ⟨strBytes "did not find expected <section-start> or <key>"⟩

/-- `ini_parser_parse_section_inherit`: always emits a SECTION-INHERIT
event; its value is the scanned parent name when a `:` token is next and
`default` otherwise. -/
def parse_section_inherit (p : PState) : Except ParseErr (Event × PState) :=
  match peekT p with
  | none => .error ⟨[]⟩
  | some tok =>
    if tok.typ == .SECTION_INHERIT_TOKEN then
      let p1 := skipT p
      match peekT p1 with
      | none => .error ⟨strBytes "did not find expected <scalar>"⟩
      | some tok2 =>
        if tok2.typ == .SCALAR_TOKEN then
          .ok (⟨.SECTION_INHERIT_EVENT, tok2.value, strBytes "str", .ANY⟩,
               { skipT p1 with state := .SECTION_ENTRY_STATE })
        else .error ⟨strBytes "did not find expected <scalar>"⟩
    else
      .ok (⟨.SECTION_INHERIT_EVENT, DEFAULT_SECTION, strBytes "str", .ANY⟩,
           { p with state := .SECTION_ENTRY_STATE })

/-- `ini_parser_parse_section_entry`: emit the SECTION-ENTRY event,
consuming the `]` token when it is next. -/
def parse_section_entry (p : PState) : Except ParseErr (Event × PState) :=
  match peekT p with
  | some tok =>
    if tok.typ == .SECTION_ENTRY_TOKEN then
      .ok (⟨.SECTION_ENTRY_EVENT, [], strBytes "section", .ANY⟩,
           { skipT p with state := .SECTION_KEY_STATE })
    else
      .ok (⟨.SECTION_ENTRY_EVENT, [], strBytes "section", .ANY⟩,
           { p with state := .SECTION_KEY_STATE })
  | none =>
    .ok (⟨.SECTION_ENTRY_EVENT, [], strBytes "section", .ANY⟩,
         { p with state := .SECTION_KEY_STATE })

/-- `ini_parser_parse_key`: a KEY token yields the key scalar event; a
SECTION-START or DOCUMENT-END token instead closes the section with a
SECTION-ENTRY event and returns to the section-start state. -/
def parse_key (p : PState) : Except ParseErr (Event × PState) :=
  match peekT p with
  | none => .error ⟨strBytes "did not find expected <key> or <section-start>"⟩
  | some tok =>
    if tok.typ == .KEY_TOKEN then
      let p1 := skipT p
      match peekT p1 with
      | none => .error ⟨strBytes "did not find expected <scalar>"⟩
      | some tok2 =>
        if tok2.typ == .SCALAR_TOKEN then
          .ok (⟨.SCALAR_EVENT, tok2.value, [], tok2.style⟩,
               { skipT p1 with state := .SECTION_VALUE_STATE })
        else .error ⟨strBytes "did not find expected <scalar>"⟩
    else if !(tok.typ == .SECTION_START_TOKEN) && !(tok.typ == .DOCUMENT_END_TOKEN) then
      .error ⟨strBytes "did not find expected <key> or <section-start>"⟩
    else
      .ok (mkEvent .SECTION_ENTRY_EVENT, { p with state := .SECTION_START_STATE })

/-- `ini_parser_parse_value`: a MAP token yields a MAPPING event; a VALUE
token followed by a scalar yields the value scalar event. -/
def parse_value (p : PState) : Except ParseErr (Event × PState) :=
  match peekT p with
  | none => .error ⟨strBytes "did not find expected <value> or <map>"⟩
  | some tok =>
    if tok.typ == .MAP_TOKEN then
      .ok (mkEvent .MAPPING_EVENT, { skipT p with state := .SECTION_KEY_STATE })
    else if tok.typ == .VALUE_TOKEN then
      let p1 := skipT p
      match peekT p1 with
      | none => .error ⟨strBytes "did not find expected <scalar>"⟩
      | some tok2 =>
        if tok2.typ == .SCALAR_TOKEN then
          .ok (⟨.SCALAR_EVENT, tok2.value, [], tok2.style⟩,
               { skipT p1 with state := .SECTION_KEY_STATE })
        else .error ⟨strBytes "did not find expected <scalar>"⟩
    else .error ⟨strBytes "did not find expected <value> or <map>"⟩

/-- `ini_parser_parse` plus `ini_parser_state_machine`: one event.  After
the document end (or in the DOCUMENT-END state) the erased event
(`ini_NO_EVENT`) is returned, as in the Go code. -/
def ini_parser_parse_step (p : PState) : Except ParseErr (Event × PState) :=
  if p.document_end_produced || p.state == .DOCUMENT_END_STATE then
    .ok (mkEvent .NO_EVENT, p)
  else
    match p.state with
    | .DOCUMENT_START_STATE => parse_document_start p
    | .SECTION_FIRST_START_STATE => parse_section_start p true
    | .SECTION_START_STATE => parse_section_start p false
    | .SECTION_INHERIT_STATE => parse_section_inherit p
    | .SECTION_ENTRY_STATE => parse_section_entry p
    | .SECTION_KEY_STATE => parse_key p
    | .SECTION_VALUE_STATE => parse_value p
    | .DOCUMENT_END_STATE => .ok (mkEvent .NO_EVENT, p)

/-- Run the parser state machine over the token stream, collecting events
up to and including the DOCUMENT-END event. -/
def run_parser_loop : Nat → PState → List Event → Except ParseErr (List Event)
  | 0, _, _ => .error ⟨strBytes "parser fuel exhausted"⟩
  | fuel+1, p, acc =>
    match ini_parser_parse_step p with
    | .error e => .error e
    | .ok (ev, p2) =>
      if ev.typ == .DOCUMENT_END_EVENT then .ok (acc ++ [ev])
      else run_parser_loop fuel p2 (acc ++ [ev])

/-- The event stream of a token stream. -/
def ini_parse_events (toks : List Token) : Except ParseErr (List Event) :=
  run_parser_loop (toks.length * 3 + 8) ⟨toks, .DOCUMENT_START_STATE, [], false⟩ []

end IniSpec

namespace IniSpec

/-! ## The node tree and the merge engine (`decode.go`) -/

/-- The node kind constants of decode.go (`documentNode`, `inheritNode`,
`sectionNode`, `mappingNode`, `scalarNode`, `commentNode`). -/
inductive NodeKind where
  | documentNode
  | inheritNode
  | sectionNode
  | mappingNode
  | scalarNode
  | commentNode
deriving DecidableEq

/-- The `node` struct of decode.go, with the diagnostic `line`/`column`
fields dropped. -/
inductive Node where
  | mk (kind : NodeKind) (tag : Bytes) (value : Bytes) (children : List Node)

/-- Field accessor: `node.kind`. -/
def Node.kind : Node → NodeKind
  | .mk k _ _ _ => k

/-- Field accessor: `node.tag`. -/
def Node.tag : Node → Bytes
  | .mk _ t _ _ => t

/-- Field accessor: `node.value`. -/
def Node.value : Node → Bytes
  | .mk _ _ v _ => v

/-- Field accessor: `node.children`. -/
def Node.children : Node → List Node
  | .mk _ _ _ cs => cs

/-- Child-cloning loop of `parser.clone_node`. -/
def cloneL (clone1 : Node → Node) : List Node → List Node
  | [] => []
  | c :: rest => clone1 c :: cloneL clone1 rest

/-- `parser.clone_node`: a structurally fresh copy of a node (kind, tag,
value and recursively cloned children; the Go code stamps the clone with
the current event's marks, which this mark-free model drops).  Fueled; the
fuel always dominates the tree depth at call sites. -/
def clone_node_f : Nat → Node → Node
  | 0, n => n
  | fuel+1, .mk k t v cs => .mk k t v (cloneL (fun c => clone_node_f fuel c) cs)

/-- The body of `merge_node`'s matched-key case: same value kinds merge
recursively when both sides have children; different value kinds replace
the target value by a clone of the source value only when `overwrite` is
set. -/
def mergeValueUpdate (merge1 : Node → Node → Node) (cloneN : Node → Node)
    (ow : Bool) (tv sv : Node) : Node :=
  if sv.kind == tv.kind then
    if sv.children.length > 0 && tv.children.length > 0 then merge1 tv (cloneN sv)
    else tv
  else if ow then cloneN sv else tv

/-- The inner `j` loop of `merge_node`: find the first target pair whose
key is a Scalar node with the same value as the (Scalar) source key, and
update its paired value; `none` when no pair matches. -/
def mergeUpdatePair (upd : Node → Node → Node) (sk sv : Node) :
    List Node → Option (List Node)
  | tk :: tv :: rest =>
    if sk.kind == .scalarNode && tk.kind == .scalarNode && sk.value == tk.value then
      some (tk :: upd tv sv :: rest)
    else (mergeUpdatePair upd sk sv rest).map (fun r => tk :: tv :: r)
  | _ => none

/-- The outer `i` loop of `merge_node` over the source's key/value pairs,
threading the updated target children and collecting the unmatched source
pairs (`swapChildNodes`) in order.  A trailing unpaired child is ignored
(the Go indexing would be out of range there; children lists built by this
parser always have even length). -/
def mergeKids (upd : Node → Node → Node) : List Node → List Node → List Node × List Node
  | tcs, [] => (tcs, [])
  | tcs, [_] => (tcs, [])
  | tcs, sk :: sv :: rest =>
    match mergeUpdatePair upd sk sv tcs with
    | some tcs2 => mergeKids upd tcs2 rest
    | none =>
      let p := mergeKids upd tcs rest
      (p.1, sk :: sv :: p.2)

/-- `parser.merge_node targetNode sourceNode overwrite`: when the kinds
agree, update the target's pairs from the source's pairs and append the
source pairs whose keys are absent from the target; otherwise leave the
target unchanged. -/
def merge_node_f : Nat → Node → Node → Bool → Node
  | 0, t, _, _ => t
  | fuel+1, t, s, ow =>
    if t.kind == s.kind then
      let upd := fun tv sv =>
        mergeValueUpdate (fun a b => merge_node_f fuel a b ow)
          (fun n => clone_node_f fuel n) ow tv sv
      let p := mergeKids upd t.children s.children
      .mk t.kind t.tag t.value (p.1 ++ p.2)
    else t

/-! ## The tree builder (`parser.parse`/`document`/`section`/`mapping`) -/

/-- The duplicate-key prefilter at the top of `parser.section`'s key
handling: rebuild the children (`swapChildNodes`), dropping every pair
whose key value equals the new key but whose value kind differs from the
new value's kind. -/
def sectionPrefilter (k v : Node) : List Node → List Node
  | tk :: tv :: rest =>
    if tk.value == k.value then
      if tv.kind == v.kind then tk :: tv :: sectionPrefilter k v rest
      else sectionPrefilter k v rest
    else tk :: tv :: sectionPrefilter k v rest
  | l => l

/-- The `nodeExist` search of `parser.section`: first pair with a Scalar
key equal (as Scalar) to the new key gets its value replaced (clone, on a
kind mismatch) or merged with `overwrite` set. -/
def sectionUpdatePair (upd : Node → Node → Node) (k v : Node) :
    List Node → Option (List Node)
  | tk :: tv :: rest =>
    if k.kind == .scalarNode && tk.kind == .scalarNode && k.value == tk.value then
      some (tk :: upd tv v :: rest)
    else (sectionUpdatePair upd k v rest).map (fun r => tk :: tv :: r)
  | _ => none

/-- One key/value assignment into a section body (`parser.section`'s loop
body): prefilter, then update in place or append. -/
def sectionUpsert (fuel : Nat) (children : List Node) (k v : Node) : List Node :=
  let cs1 := sectionPrefilter k v children
  let upd := fun tv newv =>
    if !(tv.kind == newv.kind) then clone_node_f fuel newv
    else merge_node_f fuel tv (clone_node_f fuel newv) true
  match sectionUpdatePair upd k v cs1 with
  | some cs2 => cs2
  | none => cs1 ++ [k, v]

/-- The `nodeExist` search of `parser.mapping` (matching on key kind and
value, not Scalar-only): replace or merge the paired value, else append. -/
def mappingUpdatePair (upd : Node → Node → Node) (k v : Node) :
    List Node → Option (List Node)
  | tk :: tv :: rest =>
    if k.kind == tk.kind && k.value == tk.value then
      some (tk :: upd tv v :: rest)
    else (mappingUpdatePair upd k v rest).map (fun r => tk :: tv :: r)
  | _ => none

/-- One key/value insertion into a mapping node (`parser.mapping`); the
node under construction starts empty, so the update branch is vacuous
there, but it is translated all the same. -/
def mappingUpsert (fuel : Nat) (children : List Node) (k v : Node) : List Node :=
  let upd := fun tv newv =>
    if !(tv.kind == newv.kind) then clone_node_f fuel newv
    else merge_node_f fuel tv (clone_node_f fuel newv) true
  match mappingUpdatePair upd k v children with
  | some cs2 => cs2
  | none => children ++ [k, v]

/-- The inherit-target lookup in `parser.document`: scan the document's
(key, body) pairs for a Scalar key node equal to the parent name; the
first match wins. -/
def inheritLookup (name : Bytes) : List Node → Option Node
  | tk :: tv :: rest =>
    if tk.kind == .scalarNode && tk.value == name then some tv
    else inheritLookup name rest
  | _ => none

/-- The message of `failf("inherit section '%s' does not exists", ...)`
with `failf`'s `ini: ` prefix (byte 39 is the single quote). -/
def inheritMsg (name : Bytes) : Bytes :=
  strBytes "ini: inherit section " ++ [39] ++ name ++ [39] ++ strBytes " does not exists"

/-- The inheritance resolution step of `parser.document`: look the parent
name up among the already built sections; on a hit, merge a deep clone of
the parent's body into the child with `overwrite` off; on a miss, fail
unless the name is the reserved `default`. -/
def resolveInherit (fuel : Nat) (docChildren : List Node) (name : Bytes)
    (child : Node) : Except Bytes Node :=
  match inheritLookup name docChildren with
  | some body => .ok (merge_node_f fuel child (clone_node_f fuel body) false)
  | none =>
    if !(name == DEFAULT_SECTION) then .error (inheritMsg name)
    else .ok child

/-- `failf`-prefixed message of `parser.skip`'s end guard. -/
def goPastEndMsg : Bytes :=
  strBytes "ini: attempted to go past the end of document; corrupted value?"

/-- `parser.fail` with no recorded problem. -/
def unknownProblemMsg : Bytes :=
  strBytes "ini: unknown problem parsing INI content"

/-- `parser.parse` on an erased event panics with this message. -/
def noEventMsg : Bytes :=
  strBytes "ini: attempted to parse unknown event: ini_NO_EVENT"

/-- Control positions of the tree builder: `parseNode` is a `p.parse()`
dispatch, `documentLoop` is inside `parser.document`'s loop with the pairs
built so far, `sectionLoop` is inside `parser.section`'s loop with the
children built so far. -/
inductive BMode where
  | parseNode
  | documentLoop (acc : List Node)
  | sectionLoop (acc : List Node)

/-- The tree builder over the event stream: a fueled encoding of the
mutually recursive `parser.parse` / `parser.document` / `parser.section` /
`parser.mapping` of decode.go.  The event list plays the role of the
pulled event stream; the head is the current `p.event`; `p.skip()` is
dropping the head.  `p.parse()` on the DOCUMENT-END event returns `none`
without consuming it. -/
def buildF : Nat → BMode → List Event → Except Bytes (Option Node × List Event)
  | 0, _, _ => .error (strBytes "ini: builder fuel exhausted")
  | fuel+1, .parseNode, evs =>
    match evs with
    | [] => .error noEventMsg
    | ev :: rest =>
      match ev.typ with
      | .DOCUMENT_START_EVENT => buildF fuel (.documentLoop []) rest
      | .SECTION_INHERIT_EVENT => .ok (some (.mk .inheritNode [] ev.value []), rest)
      | .SECTION_ENTRY_EVENT => buildF fuel (.sectionLoop []) rest
      | .SCALAR_EVENT => .ok (some (.mk .scalarNode ev.tag ev.value []), rest)
      | .COMMENT_EVENT => .ok (some (.mk .commentNode [] ev.value []), rest)
      | .DOCUMENT_END_EVENT => .ok (none, evs)
      | .NO_EVENT => .error noEventMsg
      | .MAPPING_EVENT =>
        -- parser.mapping: fresh node, then one key/value pair
        match buildF fuel .parseNode rest with
        | .error e => .error e
        | .ok (okey, evs1) =>
          match okey with
          | none => .error unknownProblemMsg
          | some k =>
            if k.kind == .scalarNode then
              match buildF fuel .parseNode evs1 with
              | .error e => .error e
              | .ok (oval, evs2) =>
                match oval with
                | none => .error unknownProblemMsg
                | some v =>
                  .ok (some (.mk .mappingNode [] [] (mappingUpsert fuel [] k v)), evs2)
            else .ok (some (.mk .mappingNode [] [] []), evs1)
  | fuel+1, .sectionLoop acc, evs =>
    match evs with
    | [] => .error noEventMsg
    | ev :: _ =>
      if ev.typ == .SECTION_ENTRY_EVENT then
        -- loop exit: the terminating event is left for the caller's skip
        .ok (some (.mk .sectionNode [] [] acc), evs)
      else
        match buildF fuel .parseNode evs with
        | .error e => .error e
        | .ok (okey, evs1) =>
          match okey with
          | none => .error unknownProblemMsg
          | some k =>
            if k.kind == .scalarNode then
              match buildF fuel .parseNode evs1 with
              | .error e => .error e
              | .ok (oval, evs2) =>
                match oval with
                | none => .error unknownProblemMsg
                | some v => buildF fuel (.sectionLoop (sectionUpsert fuel acc k v)) evs2
            else buildF fuel (.sectionLoop acc) evs1
  | fuel+1, .documentLoop acc, evs =>
    match evs with
    | [] => .error noEventMsg
    | ev :: _ =>
      if ev.typ == .DOCUMENT_END_EVENT then
        .ok (some (.mk .documentNode [] [] acc), evs)
      else
        match buildF fuel .parseNode evs with
        | .error e => .error e
        | .ok (okey, evs1) =>
          match okey with
          | none => .error unknownProblemMsg
          | some keyN =>
            match buildF fuel .parseNode evs1 with
            | .error e => .error e
            | .ok (onext, evs2) =>
              match onext with
              | none => .error unknownProblemMsg
              | some nextN =>
                if nextN.kind == .inheritNode then
                  match buildF fuel .parseNode evs2 with
                  | .error e => .error e
                  | .ok (ochild, evs3) =>
                    match ochild with
                    | none => .error unknownProblemMsg
                    | some childN =>
                      match resolveInherit fuel acc nextN.value childN with
                      | .error msg => .error msg
                      | .ok merged =>
                        -- trailing p.skip() of the document loop
                        match evs3 with
                        | [] => .error noEventMsg
                        | e2 :: rest3 =>
                          if e2.typ == .DOCUMENT_END_EVENT then .error goPastEndMsg
                          else buildF fuel (.documentLoop (acc ++ [keyN, merged])) rest3
                else if nextN.kind == .sectionNode then
                  match evs2 with
                  | [] => .error noEventMsg
                  | e2 :: rest3 =>
                    if e2.typ == .DOCUMENT_END_EVENT then .error goPastEndMsg
                    else buildF fuel (.documentLoop (acc ++ [keyN, nextN])) rest3
                else
                  match evs2 with
                  | [] => .error noEventMsg
                  | e2 :: rest3 =>
                    if e2.typ == .DOCUMENT_END_EVENT then .error goPastEndMsg
                    else buildF fuel (.documentLoop acc) rest3

end IniSpec

namespace IniSpec

/-- Decimal digits of a number (for the `line <n>` error prefix built by
`parser.fail` via `strconv.Itoa`). -/
def decReprAux : Nat → Nat → Bytes
  | 0, _ => []
  | fuel+1, n => if n < 10 then [48 + n] else decReprAux fuel (n / 10) ++ [48 + n % 10]

/-- `strconv.Itoa` for the line numbers in error messages. -/
def decRepr (n : Nat) : Bytes := decReprAux (n + 1) n

/-- `parser.fail` composed with `failf`: pick the line of the problem mark
(or the context mark), prefix `line <n>: ` when nonzero, fall back to
`unknown problem parsing INI content` when no problem text was recorded,
and prepend `ini: `. -/
def failMsg (problem : Bytes) (problem_line context_line : Nat) : Bytes :=
  let line := if problem_line ≠ 0 then problem_line else context_line
  let whereS :=
    if line ≠ 0 then strBytes "line " ++ decRepr line ++ strBytes ": " else []
  let msg :=
    if problem.length > 0 then problem else strBytes "unknown problem parsing INI content"
  strBytes "ini: " ++ whereS ++ msg

/-- The full parse pipeline used by `Unmarshal` (ini.go): scan, run the
event state machine, check the leading DOCUMENT-START event (`newParser`)
and build the tree (`p.parse()`).  The result is `none` exactly when
`p.parse()` returns a nil node. -/
def ini_parse (input : Bytes) : Except Bytes (Option Node) :=
  match ini_scan_tokens input with
  | .error e => .error (failMsg e.problem e.problem_mark.line e.context_mark.line)
  | .ok toks =>
    match ini_parse_events toks with
    | .error e => .error (failMsg e.problem 0 0)
    | .ok evs =>
      match evs with
      | ev :: _ =>
        if ev.typ == .DOCUMENT_START_EVENT then
          (buildF (evs.length * 4 + 16) .parseNode evs).map (fun p => p.1)
        else .error (strBytes "ini: expected ini_DOCUMENT_START_EVENT")
      | [] => .error (strBytes "ini: expected ini_DOCUMENT_START_EVENT")

/-! ## The `Unmarshal` entry point (ini.go) and the decoder's document
step (decode.go `decoder.document`)

The reflection-based binder is an external collaborator of the core (spec
§1): what a nonempty document does to a destination value depends on the
destination's reflected type and the scalar resolver.  It enters this
model as the abstract `decodeBody` argument; the translated part is the
control flow the claims are about: `decoder.document` does nothing and
reports `false` when the document node has no children, and `Unmarshal`
returns an error exactly when type errors were collected. -/

/-- `decoder.document`: the whole body is guarded by
`if len(n.children) > 0`; otherwise it returns `false` having touched
neither the destination nor the collected type errors. -/
def decoder_document {D : Type}
    (decodeBody : Node → List Bytes → D → Bool × List Bytes × D)
    (n : Node) (terrors : List Bytes) (out : D) : Bool × List Bytes × D :=
  if n.children.length > 0 then decodeBody n terrors out
  else (false, terrors, out)

/-- `strings.Join(e.Errors, "\n  ")`. -/
def joinErrs : List Bytes → Bytes
  | [] => []
  | [e] => e
  | e :: rest => e ++ [10] ++ strBytes "  " ++ joinErrs rest

/-- The `TypeError` message (`ini: unmarshal errors:` followed by the
indented error lines). -/
def typeErrorMsg (terrors : List Bytes) : Bytes :=
  strBytes "ini: unmarshal errors:" ++ [10] ++ strBytes "  " ++ joinErrs terrors

/-- `Unmarshal` (ini.go): parse; if the node is non-nil, decode it (the
root is always a Document node here, so the decode dispatch lands in
`decoder.document`); fail with the collected `TypeError` when any type
errors were recorded, else succeed with the (possibly updated)
destination. -/
def Unmarshal {D : Type}
    (decodeBody : Node → List Bytes → D → Bool × List Bytes × D)
    (input : Bytes) (out : D) : Except Bytes D :=
  match ini_parse input with
  | .error e => .error e
  | .ok none =>
    .ok out
  | .ok (some node) =>
    let r :=
      match node.kind with
      | .documentNode => decoder_document decodeBody node [] out
      | _ => (false, [], out)  -- unreachable: `ini_parse` roots are Document nodes
    if r.2.1.length > 0 then .error (typeErrorMsg r.2.1) else .ok r.2.2

end IniSpec

namespace IniSpec

/-! ## Statement-side helpers -/

/-- Key/value scalar leaf as the builder creates it from a key or value
event (empty tag). -/
def scl (s : String) : Node := .mk .scalarNode [] (strBytes s) []

/-- Section-name scalar node as the builder creates it from a section
name event (tag `str`). -/
def sclName (s : String) : Node := .mk .scalarNode (strBytes "str") (strBytes s) []

/-- Section body node. -/
def secNode (cs : List Node) : Node := .mk .sectionNode [] [] cs

/-- Mapping node. -/
def mapNode (cs : List Node) : Node := .mk .mappingNode [] [] cs

/-- Document node. -/
def docNode (cs : List Node) : Node := .mk .documentNode [] [] cs

/-- Lookup in a flat `key, value, key, value, ...` children list: the
value paired with the first Scalar key node whose value is `k` (the
key-matching rule shared by `merge_node`, `parser.section` and
`parser.document`). -/
def pairLookup : List Node → Bytes → Option Node
  | tk :: tv :: rest, k =>
    if tk.kind == .scalarNode && tk.value == k then some tv else pairLookup rest k
  | _, _ => none

/-- The key values at the even positions of a flat pair list. -/
def pairKeys : List Node → List Bytes
  | tk :: _ :: rest => tk.value :: pairKeys rest
  | _ => []

/-- The event stream of an input byte string (scanner plus parser state
machine), `none` on a scan or parse failure. -/
def ini_events_of (input : Bytes) : Option (List Event) :=
  match ini_scan_tokens input with
  | .error _ => none
  | .ok toks =>
    match ini_parse_events toks with
    | .error _ => none
    | .ok evs => some evs

end IniSpec

namespace IniSpec

/-! ## Arena (heap) model of the merge engine, for the frame-effect claim

In the Go code nodes are heap objects reached through pointers, and
`merge_node` mutates its target in place, so "resolving inheritance does
not mutate the parent" is a statement about the heap.  Cells live in an
arena indexed by allocation order; a `*node` is an index; `nil` is an
index with no cell.  `parser.clone_node` allocates fresh cells;
`parser.merge_node` mutates cells of its target and allocates clones, as
in the source. -/

/-- A heap node: the `node` struct with children as pointers (indices). -/
structure Cell where
  kind : NodeKind
  tag : Bytes
  value : Bytes
  children : List Nat
deriving DecidableEq

/-- The heap: cells in allocation order. -/
abbrev Arena := List Cell

/-- Dereference a node pointer. -/
def getCell (σ : Arena) (i : Nat) : Option Cell := σ.get? i

/-- Overwrite the cell a pointer refers to. -/
def setCell (σ : Arena) (i : Nat) (c : Cell) : Arena := σ.set i c

/-- Child-cloning loop of `parser.clone_node` on the arena. -/
def cloneKidsA (clone1 : Arena → Nat → Arena × Nat) :
    Arena → List Nat → Arena × List Nat
  | σ, [] => (σ, [])
  | σ, c :: rest =>
    let p1 := clone1 σ c
    let p2 := cloneKidsA clone1 p1.1 rest
    (p2.1, p1.2 :: p2.2)

/-- `parser.clone_node` on the arena: allocate a fresh cell for the node,
clone the children recursively, then fill in the fresh cell's child
pointers (the Go code appends them one by one). -/
def clone_arena : Nat → Arena → Nat → Arena × Nat
  | 0, σ, _ => (σ, σ.length)
  | fuel+1, σ, i =>
    match getCell σ i with
    | none => (σ ++ [⟨.scalarNode, [], [], []⟩], σ.length)
    | some c =>
      let j := σ.length
      let σ1 := σ ++ [⟨c.kind, c.tag, c.value, []⟩]
      let p := cloneKidsA (fun a b => clone_arena fuel a b) σ1 c.children
      (setCell p.1 j ⟨c.kind, c.tag, c.value, p.2⟩, j)

/-- The inner `j` search of `merge_node` on the arena: walk the target's
child pointers pairwise and return the position and pointer of the value
slot paired with the first Scalar key cell matching the (Scalar) source
key cell. -/
def merge_find (σ : Arena) (skId : Nat) : List Nat → Nat → Option (Nat × Nat)
  | tk :: tv :: rest, j =>
    match getCell σ skId, getCell σ tk with
    | some skc, some tkc =>
      if skc.kind == .scalarNode && tkc.kind == .scalarNode && skc.value == tkc.value then
        some (j + 1, tv)
      else merge_find σ skId rest (j + 2)
    | _, _ => merge_find σ skId rest (j + 2)
  | _, _ => none

/-- The outer `i` loop of `merge_node` on the arena, over the source's
child-pointer pairs: on a key match, merge recursively (same value kinds,
both with children) or, when `overwrite` is set and the kinds differ,
overwrite the target's value slot with a clone of the source value;
unmatched pairs are collected (`swapChildNodes`) for the final append. -/
def mergePairsA (mergeRec : Arena → Nat → Nat → Arena)
    (cloneRec : Arena → Nat → Arena × Nat) (ow : Bool) (t : Nat) :
    Arena → List Nat → Arena × List Nat
  | σ, [] => (σ, [])
  | σ, [_] => (σ, [])
  | σ, sk :: sv :: rest =>
    let tchildren := ((getCell σ t).map Cell.children).getD []
    match merge_find σ sk tchildren 0 with
    | some slot =>
      let σ2 :=
        match getCell σ sv, getCell σ slot.2 with
        | some svc, some tvc =>
          if svc.kind == tvc.kind then
            if svc.children.length > 0 && tvc.children.length > 0 then
              let pc := cloneRec σ sv
              mergeRec pc.1 slot.2 pc.2
            else σ
          else if ow then
            let pc := cloneRec σ sv
            match getCell pc.1 t with
            | some tca =>
              setCell pc.1 t ⟨tca.kind, tca.tag, tca.value, tca.children.set slot.1 pc.2⟩
            | none => pc.1
          else σ
        | _, _ => σ
      mergePairsA mergeRec cloneRec ow t σ2 rest
    | none =>
      let p := mergePairsA mergeRec cloneRec ow t σ rest
      (p.1, sk :: sv :: p.2)

/-- `parser.merge_node` on the arena. -/
def merge_arena : Nat → Arena → Nat → Nat → Bool → Arena
  | 0, σ, _, _, _ => σ
  | fuel+1, σ, t, s, ow =>
    match getCell σ t, getCell σ s with
    | some tc, some sc =>
      if tc.kind == sc.kind then
        let p := mergePairsA (fun a b c => merge_arena fuel a b c ow)
          (fun a b => clone_arena fuel a b) ow t σ sc.children
        match getCell p.1 t with
        | some tc2 => setCell p.1 t ⟨tc2.kind, tc2.tag, tc2.value, tc2.children ++ p.2⟩
        | none => p.1
      else σ
    | _, _ => σ

/-- The inheritance-resolution step of `parser.document` on the arena:
`p.merge_node(childNode, p.clone_node(p.doc.children[i+1]), false)`. -/
def inherit_merge_arena (fuel : Nat) (σ : Arena) (child parentBody : Nat) : Arena :=
  let p := clone_arena fuel σ parentBody
  merge_arena fuel p.1 child p.2 false

/-- Reading loop over child pointers. -/
def readKidsA (read1 : Arena → Nat → Option Node) :
    Arena → List Nat → Option (List Node)
  | _, [] => some []
  | σ, c :: rest =>
    match read1 σ c, readKidsA read1 σ rest with
    | some n, some ns => some (n :: ns)
    | _, _ => none

/-- Read the value tree rooted at a pointer out of the arena (`none` on a
dangling pointer or when the fuel does not cover the depth). -/
def readTreeA : Nat → Arena → Nat → Option Node
  | 0, _, _ => none
  | fuel+1, σ, i =>
    match getCell σ i with
    | none => none
    | some c =>
      (readKidsA (fun a b => readTreeA fuel a b) σ c.children).map
        (fun ns => Node.mk c.kind c.tag c.value ns)

/-- Membership in the merge engine's write region: the target's
reach-closed index set `R` together with every index at or above the
allocation watermark `n0`. -/
def InR (R : List Nat) (n0 j : Nat) : Prop := j ∈ R ∨ n0 ≤ j

instance (R : List Nat) (n0 j : Nat) : Decidable (InR R n0 j) := by
  unfold InR; infer_instance

end IniSpec

namespace IniSpec

/-- Closure of the write region under child pointers: every cell at an
in-region index points only into the region. -/
def RegionClosed (σ : Arena) (R : List Nat) (n0 : Nat) : Prop :=
  ∀ j c, InR R n0 j → getCell σ j = some c → ∀ x ∈ c.children, InR R n0 x

/-- The heap discipline of a cloning function: it only allocates (existing
cells are untouched), it returns a fresh pointer, and every cell it
creates points only at fresh cells. -/
def CloneProps (clone1 : Arena → Nat → Arena × Nat) : Prop :=
  ∀ (σ : Arena) (i : Nat),
    σ.length ≤ (clone1 σ i).1.length ∧
    σ.length ≤ (clone1 σ i).2 ∧
    (∀ j, j < σ.length → getCell (clone1 σ i).1 j = getCell σ j) ∧
    (∀ j c, σ.length ≤ j → getCell (clone1 σ i).1 j = some c →
      ∀ x ∈ c.children, σ.length ≤ x)

/-- The frame discipline of a merging function relative to the write
region `(R, n0)`: applied to in-region target and source on a
region-closed arena, it changes no out-of-region cell, only grows the
arena, and keeps the region closed. -/
def MergeFrameProps (mergeRec : Arena → Nat → Nat → Arena) (R : List Nat) (n0 : Nat) : Prop :=
  ∀ (σ : Arena) (t s : Nat), n0 ≤ σ.length → InR R n0 t → InR R n0 s →
    RegionClosed σ R n0 →
    (∀ j, ¬ InR R n0 j → getCell (mergeRec σ t s) j = getCell σ j) ∧
    σ.length ≤ (mergeRec σ t s).length ∧
    RegionClosed (mergeRec σ t s) R n0

end IniSpec

namespace IniSpec

/-- Executable check of `RegionClosed` (the quantifier ranges only over
indices that hold a cell). -/
def regionClosedChk (σ : Arena) (R : List Nat) (n0 : Nat) : Bool :=
  (List.range σ.length).all fun j =>
    !(decide (InR R n0 j)) ||
      (match getCell σ j with
       | some c => c.children.all fun x => decide (InR R n0 x)
       | none => true)

/-- Executable check that every cell at an index in `Rp` points only at
indices in `Rp`. -/
def ptrClosedChk (σ : Arena) (Rp : List Nat) : Bool :=
  Rp.all fun j =>
    match getCell σ j with
    | some c => c.children.all fun x => decide (x ∈ Rp)
    | none => true

end IniSpec

namespace IniSpec

/-- A concrete heap: a child section body (cell 2, holding the pair
`x=1` through cells 0,1) and an already-built parent section body
(cell 7, holding the pairs `x=2`, `y=3` through cells 3..6). -/
def arenaC9 : Arena :=
  [⟨.scalarNode, [], strBytes "x", []⟩,
   ⟨.scalarNode, [], strBytes "1", []⟩,
   ⟨.mappingNode, [], [], [0, 1]⟩,
   ⟨.scalarNode, [], strBytes "x", []⟩,
   ⟨.scalarNode, [], strBytes "2", []⟩,
   ⟨.scalarNode, [], strBytes "y", []⟩,
   ⟨.scalarNode, [], strBytes "3", []⟩,
   ⟨.mappingNode, [], [], [3, 4, 5, 6]⟩]

end IniSpec

namespace IniSpec

/-- Lookup in a pair list is preserved by appending on the right. -/
theorem pairLookup_append_some (l2 : List Node) (v : Node) :
    ∀ (l : List Node) (k : Bytes),
      pairLookup l k = some v → pairLookup (l ++ l2) k = some v := by
  intro l k
  induction l, k using pairLookup.induct with
  | case1 tk tv rest k h =>
    intro hl
    simpa [pairLookup, h] using hl
  | case2 tk tv rest k h ih =>
    intro hl
    simp only [pairLookup, h, if_neg] at hl
    simpa [pairLookup, h] using ih hl
  | case3 t k hshape =>
    intro hl
    exfalso
    match t, hshape with
    | [], _ => simp [pairLookup] at hl
    | [x], _ => simp [pairLookup] at hl
    | x :: y :: rest, hshape => exact hshape x y rest rfl

/-- An even-length pair list with no hit for `k` passes lookup through to
the appended tail. -/
theorem pairLookup_append_none (l2 : List Node) :
    ∀ (l : List Node) (k : Bytes), l.length % 2 = 0 → pairLookup l k = none →
      pairLookup (l ++ l2) k = pairLookup l2 k := by
  intro l k
  induction l, k using pairLookup.induct with
  | case1 tk tv rest k h =>
    intro _ hl
    simp [pairLookup, h] at hl
  | case2 tk tv rest k h ih =>
    intro hev hl
    simp only [pairLookup, h, if_neg] at hl
    simp only [List.length_cons] at hev
    simp only [List.cons_append, pairLookup, h, if_neg]
    exact ih (by omega) hl
  | case3 t k hshape =>
    intro hev hl
    match t, hshape with
    | [], _ => simp [pairLookup]
    | [x], _ => simp at hev
    | x :: y :: rest, hshape => exact absurd rfl (fun h => hshape x y rest h)

/-- A successful `merge_node` in-place update does not change the length
of the target children list. -/
theorem mergeUpdatePair_length (upd : Node → Node → Node) (sk sv : Node) :
    ∀ (tcs tcs2 : List Node), mergeUpdatePair upd sk sv tcs = some tcs2 →
      tcs2.length = tcs.length := by
  intro tcs
  induction tcs using mergeUpdatePair.induct upd sk sv with
  | case1 tk tv rest h =>
    intro tcs2 hm
    simp only [mergeUpdatePair, h, if_pos, Option.some.injEq] at hm
    simp [← hm]
  | case2 tk tv rest h ih =>
    intro tcs2 hm
    simp only [mergeUpdatePair, h, if_neg] at hm
    match hr : mergeUpdatePair upd sk sv rest with
    | none => simp [hr] at hm
    | some r =>
      simp only [hr, Option.map_some] at hm
      cases hm
      simp [ih r hr]
  | case3 t hshape =>
    intro tcs2 hm
    match t, hshape with
    | [], _ => simp [mergeUpdatePair] at hm
    | [x], _ => simp [mergeUpdatePair] at hm
    | x :: y :: rest, hshape => exact absurd rfl (fun h => hshape x y rest h)

/-- A successful update means the source key is a Scalar node. -/
theorem mergeUpdatePair_skkind (upd : Node → Node → Node) (sk sv : Node) :
    ∀ (tcs tcs2 : List Node), mergeUpdatePair upd sk sv tcs = some tcs2 →
      sk.kind = .scalarNode := by
  intro tcs
  induction tcs using mergeUpdatePair.induct upd sk sv with
  | case1 tk tv rest h =>
    intro tcs2 _
    simp only [Bool.and_eq_true, beq_iff_eq] at h
    exact h.1.1
  | case2 tk tv rest h ih =>
    intro tcs2 hm
    simp only [mergeUpdatePair, h, if_neg] at hm
    match hr : mergeUpdatePair upd sk sv rest with
    | none => simp [hr] at hm
    | some r => exact ih r hr
  | case3 t hshape =>
    intro tcs2 hm
    match t, hshape with
    | [], _ => simp [mergeUpdatePair] at hm
    | [x], _ => simp [mergeUpdatePair] at hm
    | x :: y :: rest, hshape => exact absurd rfl (fun h => hshape x y rest h)

/-- In-place updates preserve a missing key. -/
theorem mergeUpdatePair_lookup_none (upd : Node → Node → Node) (sk sv : Node) (k : Bytes) :
    ∀ (tcs tcs2 : List Node), mergeUpdatePair upd sk sv tcs = some tcs2 →
      pairLookup tcs k = none → pairLookup tcs2 k = none := by
  intro tcs
  induction tcs using mergeUpdatePair.induct upd sk sv with
  | case1 tk tv rest h =>
    intro tcs2 hm hl
    simp only [mergeUpdatePair, h, if_pos, Option.some.injEq] at hm
    simp only [pairLookup] at hl
    split at hl
    · exact absurd hl (by simp)
    · rename_i hc
      rw [← hm]
      simpa [pairLookup, hc] using hl
  | case2 tk tv rest h ih =>
    intro tcs2 hm hl
    simp only [mergeUpdatePair, h, if_neg] at hm
    match hr : mergeUpdatePair upd sk sv rest with
    | none => simp [hr] at hm
    | some r =>
      simp only [hr, Option.map_some] at hm
      cases hm
      simp only [pairLookup] at hl ⊢
      split at hl
      · exact absurd hl (by simp)
      · rename_i hc
        rw [if_neg hc]
        exact ih r hr hl
  | case3 t hshape =>
    intro tcs2 hm _
    match t, hshape with
    | [], _ => simp [mergeUpdatePair] at hm
    | [x], _ => simp [mergeUpdatePair] at hm
    | x :: y :: rest, hshape => exact absurd rfl (fun h => hshape x y rest h)

end IniSpec

namespace IniSpec

/-- An update keyed at a different key value leaves lookup unchanged. -/
theorem mergeUpdatePair_lookup_other (upd : Node → Node → Node) (sk sv : Node) (k : Bytes)
    (hk : sk.value ≠ k) :
    ∀ (tcs tcs2 : List Node), mergeUpdatePair upd sk sv tcs = some tcs2 →
      pairLookup tcs2 k = pairLookup tcs k := by
  intro tcs
  induction tcs using mergeUpdatePair.induct upd sk sv with
  | case1 tk tv rest h =>
    intro tcs2 hm
    simp only [mergeUpdatePair, h, if_pos, Option.some.injEq] at hm
    simp only [Bool.and_eq_true, beq_iff_eq] at h
    have htk : ¬(tk.kind == NodeKind.scalarNode && tk.value == k) = true := by
      simp only [Bool.and_eq_true, beq_iff_eq]
      rintro ⟨-, hv⟩
      exact hk (h.2 ▸ hv)
    rw [← hm]
    simp [pairLookup, htk]
  | case2 tk tv rest h ih =>
    intro tcs2 hm
    simp only [mergeUpdatePair, h, if_neg] at hm
    match hr : mergeUpdatePair upd sk sv rest with
    | none => simp [hr] at hm
    | some r =>
      simp only [hr, Option.map_some] at hm
      cases hm
      show pairLookup (tk :: tv :: r) k = pairLookup (tk :: tv :: rest) k
      simp only [pairLookup]
      split
      · rfl
      · exact ih r hr
  | case3 t hshape =>
    intro tcs2 hm
    match t, hshape with
    | [], _ => simp [mergeUpdatePair] at hm
    | [x], _ => simp [mergeUpdatePair] at hm
    | x :: y :: rest, hshape => exact absurd rfl (fun h => hshape x y rest h)

/-- An update keyed at `k` rewrites exactly the value that lookup at `k`
finds. -/
theorem mergeUpdatePair_lookup_match (upd : Node → Node → Node) (sk sv : Node) (k : Bytes)
    (hk : sk.value = k) :
    ∀ (tcs tcs2 : List Node) (v : Node), mergeUpdatePair upd sk sv tcs = some tcs2 →
      pairLookup tcs k = some v → pairLookup tcs2 k = some (upd v sv) := by
  intro tcs
  induction tcs using mergeUpdatePair.induct upd sk sv with
  | case1 tk tv rest h =>
    intro tcs2 v hm hl
    simp only [mergeUpdatePair, h, if_pos, Option.some.injEq] at hm
    simp only [Bool.and_eq_true, beq_iff_eq] at h
    have htk : (tk.kind == NodeKind.scalarNode && tk.value == k) = true := by
      simp only [Bool.and_eq_true, beq_iff_eq]
      exact ⟨h.1.2, by rw [← h.2, hk]⟩
    simp only [pairLookup, htk, if_pos, Option.some.injEq] at hl
    rw [← hm]
    simp [pairLookup, htk, ← hl]
  | case2 tk tv rest h ih =>
    intro tcs2 v hm hl
    simp only [mergeUpdatePair, h, if_neg] at hm
    match hr : mergeUpdatePair upd sk sv rest with
    | none => simp [hr] at hm
    | some r =>
      simp only [hr, Option.map_some] at hm
      cases hm
      have hsk : sk.kind = .scalarNode := mergeUpdatePair_skkind upd sk sv rest r hr
      have htk : ¬(tk.kind == NodeKind.scalarNode && tk.value == k) = true := by
        simp only [Bool.and_eq_true, beq_iff_eq]
        rintro ⟨htkk, hv⟩
        apply h
        simp only [Bool.and_eq_true, beq_iff_eq]
        exact ⟨⟨hsk, htkk⟩, by rw [hk, hv]⟩
      simp only [pairLookup, htk, if_neg] at hl
      show pairLookup (tk :: tv :: r) k = some (upd v sv)
      simp only [pairLookup, htk, if_neg]
      exact ih r v hr hl
  | case3 t hshape =>
    intro tcs2 v hm _
    match t, hshape with
    | [], _ => simp [mergeUpdatePair] at hm
    | [x], _ => simp [mergeUpdatePair] at hm
    | x :: y :: rest, hshape => exact absurd rfl (fun h => hshape x y rest h)

/-- No update happens when the source key value is absent from the target
pairs. -/
theorem mergeUpdatePair_none_of_lookup_none (upd : Node → Node → Node) (sk sv : Node) :
    ∀ (tcs : List Node), pairLookup tcs sk.value = none →
      mergeUpdatePair upd sk sv tcs = none := by
  intro tcs
  induction tcs using mergeUpdatePair.induct upd sk sv with
  | case1 tk tv rest h =>
    intro hl
    exfalso
    simp only [Bool.and_eq_true, beq_iff_eq] at h
    have : (tk.kind == NodeKind.scalarNode && tk.value == sk.value) = true := by
      simp only [Bool.and_eq_true, beq_iff_eq]
      exact ⟨h.1.2, h.2.symm⟩
    simp [pairLookup, this] at hl
  | case2 tk tv rest h ih =>
    intro hl
    simp only [pairLookup] at hl
    split at hl
    · exact absurd hl (by simp)
    · simp [mergeUpdatePair, h, ih hl]
  | case3 t hshape =>
    intro hl
    match t, hshape with
    | [], _ => simp [mergeUpdatePair]
    | [x], _ => simp [mergeUpdatePair]
    | x :: y :: rest, hshape => exact absurd rfl (fun h => hshape x y rest h)

end IniSpec

namespace IniSpec

/-- The merge loop keeps the length of the target children list (appends
happen to the separate swap list). -/
theorem mergeKids_length (upd : Node → Node → Node) :
    ∀ (tcs scs : List Node), (mergeKids upd tcs scs).1.length = tcs.length := by
  intro tcs scs
  induction tcs, scs using mergeKids.induct upd with
  | case1 tcs => simp [mergeKids]
  | case2 tcs head => simp [mergeKids]
  | case3 tcs sk sv rest tcs2 hm ih =>
    simp only [mergeKids, hm]
    rw [ih, mergeUpdatePair_length upd sk sv tcs tcs2 hm]
  | case4 tcs sk sv rest hm ih =>
    simp only [mergeKids, hm]
    exact ih

/-- The merge loop preserves the absence of a key from the target pairs. -/
theorem mergeKids_lookup_none (upd : Node → Node → Node) (k : Bytes) :
    ∀ (tcs scs : List Node), pairLookup tcs k = none →
      pairLookup (mergeKids upd tcs scs).1 k = none := by
  intro tcs scs
  induction tcs, scs using mergeKids.induct upd with
  | case1 tcs => intro h; simpa [mergeKids] using h
  | case2 tcs head => intro h; simpa [mergeKids] using h
  | case3 tcs sk sv rest tcs2 hm ih =>
    intro h
    simp only [mergeKids, hm]
    exact ih (mergeUpdatePair_lookup_none upd sk sv k tcs tcs2 hm h)
  | case4 tcs sk sv rest hm ih =>
    intro h
    simp only [mergeKids, hm]
    exact ih h

/-- When the in-place update function fixes `v`, the merge loop preserves
a lookup hit on `v`. -/
theorem mergeKids_lookup_some (upd : Node → Node → Node) (k : Bytes) (v : Node)
    (hupd : ∀ sv, upd v sv = v) :
    ∀ (tcs scs : List Node), pairLookup tcs k = some v →
      pairLookup (mergeKids upd tcs scs).1 k = some v := by
  intro tcs scs
  induction tcs, scs using mergeKids.induct upd with
  | case1 tcs => intro h; simpa [mergeKids] using h
  | case2 tcs head => intro h; simpa [mergeKids] using h
  | case3 tcs sk sv rest tcs2 hm ih =>
    intro h
    simp only [mergeKids, hm]
    apply ih
    by_cases hsk : sk.value = k
    · rw [mergeUpdatePair_lookup_match upd sk sv k hsk tcs tcs2 v hm h, hupd]
    · rw [mergeUpdatePair_lookup_other upd sk sv k hsk tcs tcs2 hm]
      exact h
  | case4 tcs sk sv rest hm ih =>
    intro h
    simp only [mergeKids, hm]
    exact ih h

/-- A source pair whose key is absent from the target survives the merge
loop: it is found in the rebuilt target plus appended swap list. -/
theorem mergeKids_gap (upd : Node → Node → Node) (k : Bytes) (v : Node) :
    ∀ (tcs scs : List Node), tcs.length % 2 = 0 → pairLookup tcs k = none →
      pairLookup scs k = some v →
      pairLookup ((mergeKids upd tcs scs).1 ++ (mergeKids upd tcs scs).2) k = some v := by
  intro tcs scs
  induction tcs, scs using mergeKids.induct upd with
  | case1 tcs =>
    intro _ _ h3
    simp [pairLookup] at h3
  | case2 tcs head =>
    intro _ _ h3
    simp [pairLookup] at h3
  | case3 tcs sk sv rest tcs2 hm ih =>
    intro hev h2 h3
    have hsk : sk.value ≠ k := by
      intro hsk
      have := mergeUpdatePair_none_of_lookup_none upd sk sv tcs (by rw [hsk]; exact h2)
      rw [this] at hm
      exact absurd hm (by simp)
    have hmiss : ¬(sk.kind == NodeKind.scalarNode && sk.value == k) = true := by
      simp only [Bool.and_eq_true, beq_iff_eq]
      rintro ⟨-, hv⟩
      exact hsk hv
    simp only [pairLookup, hmiss, if_neg] at h3
    simp only [mergeKids, hm]
    exact ih (by rw [mergeUpdatePair_length upd sk sv tcs tcs2 hm]; exact hev)
      (mergeUpdatePair_lookup_none upd sk sv k tcs tcs2 hm h2) h3
  | case4 tcs sk sv rest hm ih =>
    intro hev h2 h3
    simp only [mergeKids, hm]
    have hlen : (mergeKids upd tcs rest).1.length % 2 = 0 := by
      rw [mergeKids_length upd tcs rest]; exact hev
    have hnone : pairLookup (mergeKids upd tcs rest).1 k = none :=
      mergeKids_lookup_none upd k tcs rest h2
    rw [pairLookup_append_none _ _ k hlen hnone]
    simp only [pairLookup] at h3 ⊢
    split at h3
    · rename_i hc
      simpa [hc] using h3
    · rename_i hc
      rw [if_neg hc]
      have := ih hev h2 h3
      rwa [pairLookup_append_none _ _ k hlen hnone] at this

/-- With `overwrite` off, the update body of `merge_node` fixes a
childless target value. -/
theorem mergeValueUpdate_id (merge1 : Node → Node → Node) (cloneN : Node → Node)
    (tv sv : Node) (hvc : tv.children = []) :
    mergeValueUpdate merge1 cloneN false tv sv = tv := by
  simp [mergeValueUpdate, hvc]

end IniSpec

namespace IniSpec

/-- `merge_node` with `overwrite` off keeps the value paired with any key
the target binds to a childless value node (the target's pairs are only
touched through `mergeValueUpdate`, which fixes such values). -/
theorem merge_node_child_wins (fuel : Nat) (t s : Node) (k : Bytes) (v : Node)
    (hkind : t.kind = s.kind) (hvc : v.children = [])
    (hl : pairLookup t.children k = some v) :
    pairLookup (merge_node_f (fuel + 1) t s false).children k = some v := by
  have hc : (t.kind == s.kind) = true := by simp [hkind]
  simp only [merge_node_f, hc, if_pos, Node.children]
  apply pairLookup_append_some
  exact mergeKids_lookup_some _ k v
    (fun sv => mergeValueUpdate_id _ _ v sv hvc) t.children s.children hl

/-- `merge_node` copies into the target every source pair whose key the
target does not bind. -/
theorem merge_node_gap_filled (fuel : Nat) (t s : Node) (k : Bytes) (v : Node)
    (hkind : t.kind = s.kind) (heven : t.children.length % 2 = 0)
    (h1 : pairLookup t.children k = none) (h2 : pairLookup s.children k = some v) :
    pairLookup (merge_node_f (fuel + 1) t s false).children k = some v := by
  have hc : (t.kind == s.kind) = true := by simp [hkind]
  simp only [merge_node_f, hc, if_pos, Node.children]
  exact mergeKids_gap _ k v t.children s.children heven h1 h2

end IniSpec

namespace IniSpec

/-- The KEY/SCALAR/MAP token run emitted for a dotted key never contains a
SECTION-START token. -/
theorem buildKeyTokens_no_section_start (m : Mark) :
    ∀ (segs : List Bytes) (ts : List Token), buildKeyTokens m segs = .ok ts →
      ts.all (fun t => !(t.typ == .SECTION_START_TOKEN)) = true := by
  intro segs
  induction segs with
  | nil => intro ts h; simp only [buildKeyTokens, Except.ok.injEq] at h; simp [← h]
  | cons k ks ih =>
    intro ts h
    cases ks with
    | nil =>
      simp only [buildKeyTokens] at h
      split at h
      · exact absurd h (by simp)
      · simp only [Except.ok.injEq] at h
        simp [← h, mkToken]
    | cons k2 ks2 =>
      simp only [buildKeyTokens] at h
      split at h
      · exact absurd h (by simp)
      · match hr : buildKeyTokens m (k2 :: ks2) with
        | .error e => rw [hr] at h; exact absurd h (by simp [Except.map])
        | .ok ts2 =>
          rw [hr] at h
          simp only [Except.map, Except.ok.injEq] at h
          have := ih ts2 hr
          simp only [← h, List.all_cons, this, mkToken]
          simp

/-- `ini_parser_fetch_key` only emits KEY, SCALAR and MAP tokens. -/
theorem fetch_key_no_section_start (s s2 : SState) (toks : List Token)
    (h : ini_parser_fetch_key s = .ok (s2, toks)) :
    toks.all (fun t => !(t.typ == .SECTION_START_TOKEN)) = true := by
  unfold ini_parser_fetch_key at h
  simp only [] at h
  match hsc : fetch_key_scan (eat_blanks (s.rest.length + 1) s) with
  | .error e => rw [hsc] at h; exact absurd h (by simp)
  | .ok (s3, keyTok) =>
    rw [hsc] at h
    simp only at h
    match hb : buildKeyTokens s3.mark (splitOnDot keyTok.value) with
    | .error e => rw [hb] at h; exact absurd h (by simp [Except.map])
    | .ok ts =>
      rw [hb] at h
      simp only [Except.map, Except.ok.injEq, Prod.mk.injEq] at h
      rw [← h.2]
      exact buildKeyTokens_no_section_start s3.mark _ ts hb

end IniSpec

namespace IniSpec

/-- C1: resolving `[child:parent]` merges the earlier-declared parent into
the child with the no-overwrite rule: any key the child binds to a
(Scalar, childless) value keeps exactly that value, any key the parent
binds and the child does not is copied into the child; on the spec's two
documents, section `b` parses to `x=2, y=3` and `x=2, y=5`
respectively. -/
theorem c1_inherit_no_overwrite :
    (∀ (fuel : Nat) (t s : Node) (k : Bytes) (v : Node),
      t.kind = s.kind → v.kind = .scalarNode → v.children = [] →
      pairLookup t.children k = some v →
      pairLookup (merge_node_f (fuel + 1) t s false).children k = some v) ∧
    (∀ (fuel : Nat) (t s : Node) (k : Bytes) (v : Node),
      t.kind = s.kind → t.children.length % 2 = 0 →
      pairLookup t.children k = none → pairLookup s.children k = some v →
      pairLookup (merge_node_f (fuel + 1) t s false).children k = some v) ∧
    ini_parse (strBytes "[a]\nx=1\n[b:a]\nx=2\ny=3") =
      .ok (some (docNode [sclName "a", secNode [scl "x", scl "1"],
        sclName "b", secNode [scl "x", scl "2", scl "y", scl "3"]])) ∧
    ini_parse (strBytes "[a]\nx=1\ny=5\n[b:a]\nx=2") =
      .ok (some (docNode [sclName "a", secNode [scl "x", scl "1", scl "y", scl "5"],
        sclName "b", secNode [scl "x", scl "2", scl "y", scl "5"]])) := by
  refine ⟨?_, ?_, rfl, rfl⟩
  · intro fuel t s k v hkind _ hvc hl
    exact merge_node_child_wins fuel t s k v hkind hvc hl
  · intro fuel t s k v hkind heven h1 h2
    exact merge_node_gap_filled fuel t s k v hkind heven h1 h2

/-- Witness for C1 at the spec's first document: in the merge of section
`b` (children `x=2, y=3`) with parent `a` (children `x=1`), the child's
`x` stays `2`, and for the second document the parent's `y=5` is copied
into a child that only binds `x`. -/
theorem c1_inherit_no_overwrite_witness :
    pairLookup (merge_node_f 1 (secNode [scl "x", scl "2", scl "y", scl "3"])
        (secNode [scl "x", scl "1"]) false).children (strBytes "x") = some (scl "2") ∧
    pairLookup (merge_node_f 1 (secNode [scl "x", scl "2"])
        (secNode [scl "x", scl "1", scl "y", scl "5"]) false).children (strBytes "y") =
      some (scl "5") :=
  ⟨c1_inherit_no_overwrite.1 0 _ _ _ _ rfl rfl rfl rfl,
   c1_inherit_no_overwrite.2.1 0 _ _ _ _ rfl rfl rfl rfl⟩

/-- C2: on `a=1\nb=2\na=3` the code produces exactly one `a` key before
the `b` key, but the duplicate assignment is dropped: `merge_node` with
`overwrite` on does nothing for two childless Scalar values, so `a` keeps
the first value `1`, not `3` (divergence from the claimed overwrite). -/
theorem c2_duplicate_key_keeps_first :
    ini_parse (strBytes "a=1\nb=2\na=3") =
      .ok (some (docNode [sclName "default",
        secNode [scl "a", scl "1", scl "b", scl "2"]])) ∧
    merge_node_f 1 (scl "1") (scl "3") true = scl "1" := ⟨rfl, rfl⟩

/-- C3: two dotted keys sharing the prefix `hello` in one section merge
into a single `hello` Mapping node holding both nested pairs. -/
theorem c3_dotted_key_merge :
    ini_parse (strBytes "hello.1=world\nhello.2=world2") =
      .ok (some (docNode [sclName "default",
        secNode [scl "hello",
          mapNode [scl "1", scl "world", scl "2", scl "world2"]]])) := rfl

/-- C4: re-declaring `hello` with a Mapping after a Scalar discards the
Scalar: the value is fully replaced, leaving only the nested pair. -/
theorem c4_type_overwrite :
    ini_parse (strBytes "hello=world\nhello.1=world_1") =
      .ok (some (docNode [sclName "default",
        secNode [scl "hello", mapNode [scl "1", scl "world_1"]]])) := rfl

/-- C5: the inheritance-resolution step of `parser.document` fails with
the message naming the missing parent exactly when the parent name is
neither among the already-built sections nor `default`; the reserved name
`default` never fails even with no `[default]` section; a found parent
merges; and the spec's two documents behave accordingly end to end. -/
theorem c5_unknown_inherit_target :
    (∀ (fuel : Nat) (built : List Node) (name : Bytes) (child : Node),
      inheritLookup name built = none → name ≠ DEFAULT_SECTION →
      resolveInherit fuel built name child = .error (inheritMsg name)) ∧
    (∀ (fuel : Nat) (built : List Node) (name : Bytes) (child : Node),
      inheritLookup name built = none → name = DEFAULT_SECTION →
      resolveInherit fuel built name child = .ok child) ∧
    (∀ (fuel : Nat) (built : List Node) (name : Bytes) (child body : Node),
      inheritLookup name built = some body →
      resolveInherit fuel built name child =
        .ok (merge_node_f fuel child (clone_node_f fuel body) false)) ∧
    ini_parse (strBytes "[b:nonexistent]\nx=1") =
      .error (inheritMsg (strBytes "nonexistent")) ∧
    ini_parse (strBytes "[b:default]\nx=1") =
      .ok (some (docNode [sclName "b", secNode [scl "x", scl "1"]])) := by
  refine ⟨?_, ?_, ?_, rfl, rfl⟩
  · intro fuel built name child h1 h2
    simp [resolveInherit, h1, h2]
  · intro fuel built name child h1 h2
    subst h2
    simp [resolveInherit, h1]
  · intro fuel built name child body h
    simp [resolveInherit, h]

/-- Witness for C5: resolving `nope` against no built sections fails with
the message naming `nope`; resolving `default` against no built sections
succeeds; resolving against a built section `a` merges. -/
theorem c5_unknown_inherit_target_witness :
    resolveInherit 1 [] (strBytes "nope") (secNode []) =
      .error (inheritMsg (strBytes "nope")) ∧
    resolveInherit 1 [] DEFAULT_SECTION (secNode []) = .ok (secNode []) ∧
    resolveInherit 1 [sclName "a", secNode [scl "x", scl "1"]] (strBytes "a")
        (secNode []) =
      .ok (merge_node_f 1 (secNode []) (clone_node_f 1 (secNode [scl "x", scl "1"])) false) :=
  ⟨c5_unknown_inherit_target.1 1 [] (strBytes "nope") (secNode []) rfl (by decide),
   c5_unknown_inherit_target.2.1 1 [] DEFAULT_SECTION (secNode []) rfl rfl,
   c5_unknown_inherit_target.2.2.1 1 [sclName "a", secNode [scl "x", scl "1"]]
     (strBytes "a") (secNode []) (secNode [scl "x", scl "1"]) rfl⟩

end IniSpec

namespace IniSpec

/-- Counterexample to C6: for the plain header `[b]` (no `:` scanned) the
parser does emit a SECTION-INHERIT event, and after a default section
holding `x=1`, the plain section `[b]` does receive the key `x` from it. -/
theorem c6_counterexample_inherit_always_emitted :
    (ini_events_of (strBytes "[b]\ny=1\n")).map
        (fun evs => evs.any (fun e => e.typ == .SECTION_INHERIT_EVENT)) = some true ∧
    (ini_parse (strBytes "x=1\n[b]\ny=2")).map (Option.map (fun n =>
        pairLookup ((pairLookup n.children (strBytes "b")).getD (docNode [])).children
          (strBytes "x"))) = .ok (some (some (scl "1"))) := ⟨rfl, rfl⟩

/-- C6 (amended): in the section-inherit state, reached after every
`[name]` header, the parser always emits a SECTION-INHERIT event: with
the parent name when a `:` token is next, else with value `default`;
consequently a plain `[name]` section inherits (no-overwrite) the keys of
an earlier-declared default section, as on `x=1\n[b]\ny=2`. -/
theorem c6_inherit_event_defaulted :
    (∀ (p : PState) (tok : Token),
      p.document_end_produced = false → p.state = .SECTION_INHERIT_STATE →
      peekT p = some tok → tok.typ ≠ .SECTION_INHERIT_TOKEN →
      ini_parser_parse_step p =
        .ok (⟨.SECTION_INHERIT_EVENT, DEFAULT_SECTION, strBytes "str", .ANY⟩,
             { p with state := .SECTION_ENTRY_STATE })) ∧
    ini_parse (strBytes "x=1\n[b]\ny=2") =
      .ok (some (docNode [sclName "default", secNode [scl "x", scl "1"],
        sclName "b", secNode [scl "y", scl "2", scl "x", scl "1"]])) := by
  constructor
  · intro p tok h1 h2 h3 h4
    have hde : (p.state == PK.DOCUMENT_END_STATE) = false := by simp [h2]
    have ht : (tok.typ == TokenType.SECTION_INHERIT_TOKEN) = false := by simp [h4]
    simp [ini_parser_parse_step, h1, hde, h2, parse_section_inherit, h3, ht]
  · rfl

/-- Witness for C6: at a state in the section-inherit position whose next
token is the `]` token, the step emits the SECTION-INHERIT event with
value `default`. -/
theorem c6_inherit_event_defaulted_witness :
    ini_parser_parse_step
        ⟨[mkToken .SECTION_ENTRY_TOKEN (strBytes "]")], .SECTION_INHERIT_STATE, [], false⟩ =
      .ok (⟨.SECTION_INHERIT_EVENT, DEFAULT_SECTION, strBytes "str", .ANY⟩,
           ⟨[mkToken .SECTION_ENTRY_TOKEN (strBytes "]")], .SECTION_ENTRY_STATE, [], false⟩) :=
  c6_inherit_event_defaulted.1
    ⟨[mkToken .SECTION_ENTRY_TOKEN (strBytes "]")], .SECTION_INHERIT_STATE, [], false⟩
    (mkToken .SECTION_ENTRY_TOKEN (strBytes "]")) rfl rfl rfl (by decide)

/-- Counterexample to C7: re-declaring `[a]` appends a second
`(name, body)` pair, so the name `a` occurs twice among the document's
pairs. -/
theorem c7_counterexample_duplicate_section_pairs :
    (ini_parse (strBytes "[a]\nx=1\n[a]\ny=2")).map
        (Option.map (fun n => pairKeys n.children)) =
      .ok (some [strBytes "a", strBytes "a"]) := rfl

/-- C7 (amended): `parser.document` appends every built section
unconditionally, so re-declaring a section name yields a second
`(SectionNameNode, SectionBodyNode)` pair with that name; the earlier
section's body is not augmented. -/
theorem c7_redeclared_section_appended :
    ini_parse (strBytes "[a]\nx=1\n[a]\ny=2") =
      .ok (some (docNode [sclName "a", secNode [scl "x", scl "1"],
        sclName "a", secNode [scl "y", scl "2"]])) := rfl

/-- C8: after `ini_parser_scan_to_next_token` has positioned the scanner
on a `[` at a nonzero column (and not at end of input), the token
dispatcher of `ini_parser_fetch_next_token` takes the key route, which
never produces a SECTION-START token. -/
theorem c8_bracket_needs_column_zero :
    ∀ (s s2 : SState) (toks : List Token),
      is_z s.rest = false → s.mark.column ≠ 0 → hd s.rest = 91 →
      fetch_dispatch s = .ok (s2, toks) →
      toks.all (fun t => !(t.typ == .SECTION_START_TOKEN)) = true := by
  intro s s2 toks h1 h2 h3 h4
  have hcol : (s.mark.column == 0) = false := by simp [h2]
  unfold fetch_dispatch at h4
  rw [h1, h3] at h4
  simp only [hcol, Bool.false_and, Bool.false_eq_true, if_false] at h4
  norm_num at h4
  exact fetch_key_no_section_start s s2 toks h4

/-- Witness for C8: a `[` at column 5 (mid line) is scanned as plain key
content, producing a KEY and a SCALAR token and no SECTION-START token. -/
theorem c8_bracket_needs_column_zero_witness :
    ([mkToken .KEY_TOKEN [], (⟨.SCALAR_TOKEN, strBytes "[x]", .PLAIN⟩ : Token)].all
        (fun t => !(t.typ == .SECTION_START_TOKEN))) = true :=
  c8_bracket_needs_column_zero
    ⟨strBytes "[x]=1" ++ [0], ⟨5, 0, 5⟩, true⟩
    ⟨strBytes "=1" ++ [0], ⟨8, 0, 8⟩, true⟩
    [mkToken .KEY_TOKEN [], ⟨.SCALAR_TOKEN, strBytes "[x]", .PLAIN⟩]
    (by decide) (by decide) (by decide) (by rfl)

/-- C10: `Unmarshal` of the empty buffer: the parse yields a Document
node with no children, `decoder.document` on a childless node reports
`false` without touching the destination or recording type errors, and
`Unmarshal` returns no error and the destination unchanged, whatever the
(external) binder body does. -/
theorem c10_empty_unmarshal :
    ini_parse (strBytes "") = .ok (some (docNode [])) ∧
    (∀ (D : Type) (f : Node → List Bytes → D → Bool × List Bytes × D)
       (n : Node) (te : List Bytes) (out : D), n.children = [] →
      decoder_document f n te out = (false, te, out)) ∧
    (∀ (D : Type) (f : Node → List Bytes → D → Bool × List Bytes × D) (out : D),
      Unmarshal f (strBytes "") out = .ok out) := by
  refine ⟨rfl, ?_, ?_⟩
  · intro D f n te out h
    simp [decoder_document, h]
  · intro D f out
    rfl

/-- Witness for C10: a childless Document node with a binder body that
would flip the flag and a nonempty error list left untouched. -/
theorem c10_empty_unmarshal_witness :
    decoder_document (fun _ te d => (true, te, d)) (docNode []) [strBytes "x"] (5 : Nat) =
      (false, [strBytes "x"], 5) :=
  c10_empty_unmarshal.2.1 Nat (fun _ te d => (true, te, d)) (docNode []) [strBytes "x"] 5 rfl

end IniSpec

namespace IniSpec

/-- A dereferenceable pointer is below the arena length. -/
theorem getCell_some_lt (σ : Arena) (j : Nat) (c : Cell) (h : getCell σ j = some c) :
    j < σ.length := by
  by_contra hj
  rw [getCell, List.get?_eq_none.mpr (by omega)] at h
  exact absurd h (by simp)

/-- Writing one cell leaves every other pointer unchanged. -/
theorem getCell_set_ne (σ : Arena) (i j : Nat) (c : Cell) (h : i ≠ j) :
    getCell (setCell σ i c) j = getCell σ j := by
  simp [getCell, setCell, List.getElem?_set_ne h]

/-- Writing does not change the arena length. -/
theorem setCell_length (σ : Arena) (i : Nat) (c : Cell) :
    (setCell σ i c).length = σ.length := by
  simp [setCell]

/-- Allocation leaves existing pointers unchanged. -/
theorem getCell_append (σ τ : Arena) (j : Nat) (h : j < σ.length) :
    getCell (σ ++ τ) j = getCell σ j := by
  simp [getCell, List.getElem?_append_left h]

end IniSpec

namespace IniSpec

/-- Writing a cell in bounds makes it readable at its index. -/
theorem getCell_set_eq (σ : Arena) (i : Nat) (c : Cell) (h : i < σ.length) :
    getCell (setCell σ i c) i = some c := by
  simp [getCell, setCell, List.getElem?_set_self, h]

/-- The freshly appended cell is readable at the old length. -/
theorem getCell_append_one (σ : Arena) (c : Cell) :
    getCell (σ ++ [c]) σ.length = some c := by
  simp [getCell, List.getElem?_append_right (Nat.le_refl σ.length)]

/-- Past the single appended cell the arena is still empty. -/
theorem getCell_append_one_ge (σ : Arena) (c : Cell) (j : Nat) (h : σ.length < j) :
    getCell (σ ++ [c]) j = none := by
  rw [getCell, List.get?_eq_none.mpr]
  simp; omega

/-- The child-cloning loop of `clone_node` inherits the heap discipline of
the one-node cloner: it only allocates, existing cells are untouched, new
cells point only at new cells, and it returns only fresh pointers. -/
theorem cloneKidsA_props (c1 : Arena → Nat → Arena × Nat) (h : CloneProps c1) :
    ∀ (ids : List Nat) (σ : Arena),
      σ.length ≤ (cloneKidsA c1 σ ids).1.length ∧
      (∀ j, j < σ.length → getCell (cloneKidsA c1 σ ids).1 j = getCell σ j) ∧
      (∀ j c, σ.length ≤ j → getCell (cloneKidsA c1 σ ids).1 j = some c →
        ∀ x ∈ c.children, σ.length ≤ x) ∧
      (∀ x ∈ (cloneKidsA c1 σ ids).2, σ.length ≤ x) := by
  intro ids
  induction ids with
  | nil =>
    intro σ
    refine ⟨Nat.le_refl _, fun j _ => rfl, ?_, ?_⟩
    · intro j c hj hc
      have hc' : getCell σ j = some c := hc
      exact absurd (getCell_some_lt _ _ _ hc') (by omega)
    · intro x hx
      simp [cloneKidsA] at hx
  | cons i rest ih =>
    intro σ
    obtain ⟨h1, h2, h3, h4⟩ := h σ i
    obtain ⟨g1, g2, g3, g4⟩ := ih (c1 σ i).1
    have e : cloneKidsA c1 σ (i :: rest)
        = ((cloneKidsA c1 (c1 σ i).1 rest).1,
           (c1 σ i).2 :: (cloneKidsA c1 (c1 σ i).1 rest).2) := rfl
    rw [e]
    refine ⟨Nat.le_trans h1 g1, ?_, ?_, ?_⟩
    · intro j hj
      exact (g2 j (Nat.lt_of_lt_of_le hj h1)).trans (h3 j hj)
    · intro j c hj hc x hx
      by_cases hlt : j < (c1 σ i).1.length
      · rw [g2 j hlt] at hc
        exact h4 j c hj hc x hx
      · exact Nat.le_trans h1 (g3 j c (Nat.le_of_not_lt hlt) hc x hx)
    · intro x hx
      rcases List.mem_cons.mp hx with hx | hx
      · exact hx ▸ h2
      · exact Nat.le_trans h1 (g4 x hx)

/-- `clone_node` on the arena satisfies the clone heap discipline, at
every fuel. -/
theorem clone_arena_props : ∀ fuel : Nat, CloneProps (clone_arena fuel) := by
  intro fuel
  induction fuel with
  | zero =>
    intro σ i
    refine ⟨Nat.le_refl _, Nat.le_refl _, fun j _ => rfl, ?_⟩
    intro j c hj hc
    have hc' : getCell σ j = some c := hc
    exact absurd (getCell_some_lt _ _ _ hc') (by omega)
  | succ fuel ih =>
    intro σ i
    cases hg : getCell σ i with
    | none =>
      have e : clone_arena (fuel+1) σ i
          = (σ ++ [⟨.scalarNode, [], [], []⟩], σ.length) := by
        simp [clone_arena, hg]
      rw [e]
      refine ⟨by simp, Nat.le_refl _, ?_, ?_⟩
      · intro j hj
        exact getCell_append (σ := σ) (τ := [⟨.scalarNode, [], [], []⟩]) j hj
      · intro j c hj hc x hx
        rcases Nat.lt_or_ge σ.length j with hlt | hge
        · rw [getCell_append_one_ge σ _ j hlt] at hc
          cases hc
        · have hj' : j = σ.length := Nat.le_antisymm hge hj
          subst hj'
          rw [getCell_append_one] at hc
          cases hc
          simp at hx
    | some c =>
      have e : clone_arena (fuel+1) σ i
          = (setCell (cloneKidsA (fun a b => clone_arena fuel a b)
                (σ ++ [⟨c.kind, c.tag, c.value, []⟩]) c.children).1 σ.length
              ⟨c.kind, c.tag, c.value,
               (cloneKidsA (fun a b => clone_arena fuel a b)
                (σ ++ [⟨c.kind, c.tag, c.value, []⟩]) c.children).2⟩, σ.length) := by
        simp [clone_arena, hg]
      obtain ⟨k1, k2, k3, k4⟩ :=
        cloneKidsA_props (fun a b => clone_arena fuel a b) ih c.children
          (σ ++ [⟨c.kind, c.tag, c.value, []⟩])
    -- the watermark of the child-clone pass is one above the original arena
      have hσ1 : (σ ++ [(⟨c.kind, c.tag, c.value, []⟩ : Cell)]).length = σ.length + 1 := by
        simp
      rw [e]
      refine ⟨?_, Nat.le_refl _, ?_, ?_⟩
      · rw [setCell_length]
        omega
      · intro j hj
        rw [setCell]
        rw [show getCell (List.set _ σ.length _) j
            = getCell (setCell _ σ.length _) j from rfl]
        rw [getCell_set_ne _ _ _ _ (by omega)]
        rw [k2 j (by omega)]
        exact getCell_append _ _ j hj
      · intro j d hj hd x hx
        by_cases hje : j = σ.length
        · subst hje
          rw [getCell_set_eq _ _ _ (by omega)] at hd
          cases hd
          have := k4 x hx
          omega
        · rw [getCell_set_ne _ _ _ _ (by omega)] at hd
          have := k3 j d (by omega) hd x hx
          omega

/-- Cloning preserves region-closure of the heap (old cells are
untouched, new ones point above the watermark). -/
theorem clone_preserves_closed (c1 : Arena → Nat → Arena × Nat) (h : CloneProps c1)
    (σ : Arena) (i : Nat) (R : List Nat) (n0 : Nat) (hn : n0 ≤ σ.length)
    (hcl : RegionClosed σ R n0) : RegionClosed (c1 σ i).1 R n0 := by
  intro j c hj hc x hx
  by_cases hlt : j < σ.length
  · rw [(h σ i).2.2.1 j hlt] at hc
    exact hcl j c hj hc x hx
  · exact Or.inr (Nat.le_trans hn ((h σ i).2.2.2 j c (Nat.le_of_not_lt hlt) hc x hx))

end IniSpec

namespace IniSpec

/-- The value slot returned by the key search of `merge_node` is one of
the target's child pointers. -/
theorem merge_find_mem (σ : Arena) (skId : Nat) :
    ∀ (l : List Nat) (j : Nat) (p : Nat × Nat), merge_find σ skId l j = some p → p.2 ∈ l
  | tk :: tv :: rest, j, p, h => by
    rw [merge_find] at h
    split at h
    · split at h
      · cases h
        simp
      · have := merge_find_mem σ skId rest (j + 2) p h
        simp [this]
    · have := merge_find_mem σ skId rest (j + 2) p h
      simp [this]
  | [], _, p, h => by simp [merge_find] at h
  | [x], _, p, h => by simp [merge_find] at h

end IniSpec

namespace IniSpec

/-- The pair loop of `merge_node` obeys the frame discipline: given that
the recursive merge and the cloner behave, it does not touch any cell
outside the write region, only grows the arena, keeps the region closed,
and collects only in-region pointers for the final append. -/
theorem mergePairsA_frame (mergeRec : Arena → Nat → Nat → Arena)
    (cloneRec : Arena → Nat → Arena × Nat) (ow : Bool) (t : Nat)
    (R : List Nat) (n0 : Nat)
    (hm : MergeFrameProps mergeRec R n0) (hc : CloneProps cloneRec)
    (ht : InR R n0 t) :
    ∀ (scs : List Nat) (σ : Arena), n0 ≤ σ.length → RegionClosed σ R n0 →
      (∀ x ∈ scs, InR R n0 x) →
      (∀ j, ¬ InR R n0 j →
        getCell (mergePairsA mergeRec cloneRec ow t σ scs).1 j = getCell σ j) ∧
      σ.length ≤ (mergePairsA mergeRec cloneRec ow t σ scs).1.length ∧
      RegionClosed (mergePairsA mergeRec cloneRec ow t σ scs).1 R n0 ∧
      (∀ x ∈ (mergePairsA mergeRec cloneRec ow t σ scs).2, InR R n0 x)
  | [], σ, hn, hcl, hin => by
    refine ⟨fun j _ => rfl, Nat.le_refl _, hcl, ?_⟩
    intro x hx
    simp [mergePairsA] at hx
  | [a], σ, hn, hcl, hin => by
    refine ⟨fun j _ => rfl, Nat.le_refl _, hcl, ?_⟩
    intro x hx
    simp [mergePairsA] at hx
  | sk :: sv :: rest, σ, hn, hcl, hin => by
    have hin' : ∀ x ∈ rest, InR R n0 x := fun x hx => hin x (by simp [hx])
    have hsk : InR R n0 sk := hin sk (by simp)
    have hsv : InR R n0 sv := hin sv (by simp)
    have hout : ∀ j, ¬ InR R n0 j → j < σ.length := by
      intro j hj
      rcases Nat.lt_or_ge j n0 with h | h
      · exact Nat.lt_of_lt_of_le h hn
      · exact absurd (Or.inr h) hj
    simp only [mergePairsA]
    cases hfind : merge_find σ sk (((getCell σ t).map Cell.children).getD []) 0 with
    | none =>
      obtain ⟨f1, f2, f3, f4⟩ :=
        mergePairsA_frame mergeRec cloneRec ow t R n0 hm hc ht rest σ hn hcl hin'
      refine ⟨f1, f2, f3, ?_⟩
      intro x hx
      rcases List.mem_cons.mp hx with hx | hx
      · exact hx ▸ hsk
      rcases List.mem_cons.mp hx with hx | hx
      · exact hx ▸ hsv
      · exact f4 x hx
    | some slot =>
      have hslot2 : InR R n0 slot.2 := by
        cases hgt : getCell σ t with
        | none =>
          rw [hgt] at hfind
          simp [merge_find] at hfind
        | some tc =>
          rw [hgt] at hfind
          have hfind' : merge_find σ sk tc.children 0 = some slot := hfind
          exact hcl t tc ht hgt slot.2 (merge_find_mem σ sk tc.children 0 slot hfind')
      have hstep : ∀ σ2 : Arena,
          (σ.length ≤ σ2.length ∧ RegionClosed σ2 R n0 ∧
            (∀ j, ¬ InR R n0 j → getCell σ2 j = getCell σ j)) →
          (∀ j, ¬ InR R n0 j →
            getCell (mergePairsA mergeRec cloneRec ow t σ2 rest).1 j = getCell σ j) ∧
          σ.length ≤ (mergePairsA mergeRec cloneRec ow t σ2 rest).1.length ∧
          RegionClosed (mergePairsA mergeRec cloneRec ow t σ2 rest).1 R n0 ∧
          (∀ x ∈ (mergePairsA mergeRec cloneRec ow t σ2 rest).2, InR R n0 x) := by
        intro σ2 hk
        obtain ⟨k1, k2, k3⟩ := hk
        obtain ⟨f1, f2, f3, f4⟩ :=
          mergePairsA_frame mergeRec cloneRec ow t R n0 hm hc ht rest σ2
            (Nat.le_trans hn k1) k2 hin'
        exact ⟨fun j hj => (f1 j hj).trans (k3 j hj), Nat.le_trans k1 f2, f3, f4⟩
      apply hstep
      have hcl1 : RegionClosed (cloneRec σ sv).1 R n0 :=
        clone_preserves_closed cloneRec hc σ sv R n0 hn hcl
      obtain ⟨c1l, c1id, c1pres, _⟩ := hc σ sv
      split
      · split
        · split
          · -- recursive merge into the matched slot
            obtain ⟨m1, m2, m3⟩ :=
              hm (cloneRec σ sv).1 slot.2 (cloneRec σ sv).2 (Nat.le_trans hn c1l)
                hslot2 (Or.inr (Nat.le_trans hn c1id)) hcl1
            refine ⟨Nat.le_trans c1l m2, m3, ?_⟩
            intro j hj
            exact (m1 j hj).trans (c1pres j (hout j hj))
          · exact ⟨Nat.le_refl _, hcl, fun j _ => rfl⟩
        · split
          · split
            · -- overwrite the value slot with a clone of the source value
              rename_i tca heqt
              have htlt : t < (cloneRec σ sv).1.length := getCell_some_lt _ _ _ heqt
              refine ⟨by rw [setCell_length]; exact c1l, ?_, ?_⟩
              · intro j c hj hc' x hx
                by_cases hjt : j = t
                · subst hjt
                  rw [getCell_set_eq _ _ _ htlt] at hc'
                  cases hc'
                  rcases List.mem_or_eq_of_mem_set hx with hx | hx
                  · exact hcl1 j tca hj heqt x hx
                  · exact hx ▸ Or.inr (Nat.le_trans hn c1id)
                · rw [getCell_set_ne _ _ _ _ (fun he => hjt he.symm)] at hc'
                  exact hcl1 j c hj hc' x hx
              · intro j hj
                have hne : t ≠ j := fun he => hj (he ▸ ht)
                rw [getCell_set_ne _ _ _ _ hne]
                exact c1pres j (hout j hj)
            · -- clone allocated but the target vanished: keep the clone heap
              exact ⟨c1l, hcl1, fun j hj => c1pres j (hout j hj)⟩
          · exact ⟨Nat.le_refl _, hcl, fun j _ => rfl⟩
      · exact ⟨Nat.le_refl _, hcl, fun j _ => rfl⟩

end IniSpec

namespace IniSpec

/-- `merge_node` on the arena obeys the frame discipline at every fuel:
merging an in-region source into an in-region target on a region-closed
heap leaves every out-of-region cell untouched. -/
theorem merge_arena_frame (R : List Nat) (n0 : Nat) :
    ∀ (fuel : Nat) (ow : Bool), MergeFrameProps (fun a b c => merge_arena fuel a b c ow) R n0 := by
  intro fuel
  induction fuel with
  | zero =>
    intro ow σ t s hn ht hs hcl
    exact ⟨fun j _ => rfl, Nat.le_refl _, hcl⟩
  | succ fuel ih =>
    intro ow σ t s hn ht hs hcl
    show (∀ j, ¬ InR R n0 j → getCell (merge_arena (fuel+1) σ t s ow) j = getCell σ j) ∧
      σ.length ≤ (merge_arena (fuel+1) σ t s ow).length ∧
      RegionClosed (merge_arena (fuel+1) σ t s ow) R n0
    cases hgt : getCell σ t with
    | none =>
      have e : merge_arena (fuel+1) σ t s ow = σ := by
        simp [merge_arena, hgt]
      rw [e]
      exact ⟨fun j _ => rfl, Nat.le_refl _, hcl⟩
    | some tc =>
      cases hgs : getCell σ s with
      | none =>
        have e : merge_arena (fuel+1) σ t s ow = σ := by
          simp [merge_arena, hgt, hgs]
        rw [e]
        exact ⟨fun j _ => rfl, Nat.le_refl _, hcl⟩
      | some sc =>
        by_cases hk : (tc.kind == sc.kind) = true
        · have hscs : ∀ x ∈ sc.children, InR R n0 x := hcl s sc hs hgs
          obtain ⟨f1, f2, f3, f4⟩ :=
            mergePairsA_frame (fun a b c => merge_arena fuel a b c ow)
              (fun a b => clone_arena fuel a b) ow t R n0 (ih ow) (clone_arena_props fuel)
              ht sc.children σ hn hcl hscs
          cases hpt : getCell (mergePairsA (fun a b c => merge_arena fuel a b c ow)
              (fun a b => clone_arena fuel a b) ow t σ sc.children).1 t with
          | none =>
            have e : merge_arena (fuel+1) σ t s ow
                = (mergePairsA (fun a b c => merge_arena fuel a b c ow)
                    (fun a b => clone_arena fuel a b) ow t σ sc.children).1 := by
              simp [merge_arena, hgt, hgs, hk, hpt]
            rw [e]
            exact ⟨f1, f2, f3⟩
          | some tc2 =>
            have e : merge_arena (fuel+1) σ t s ow
                = setCell (mergePairsA (fun a b c => merge_arena fuel a b c ow)
                    (fun a b => clone_arena fuel a b) ow t σ sc.children).1 t
                    ⟨tc2.kind, tc2.tag, tc2.value, tc2.children
                      ++ (mergePairsA (fun a b c => merge_arena fuel a b c ow)
                          (fun a b => clone_arena fuel a b) ow t σ sc.children).2⟩ := by
              simp [merge_arena, hgt, hgs, hk, hpt]
            rw [e]
            refine ⟨?_, ?_, ?_⟩
            · intro j hj
              have hne : t ≠ j := fun he => hj (he ▸ ht)
              rw [getCell_set_ne _ _ _ _ hne]
              exact f1 j hj
            · rw [setCell_length]
              exact f2
            · intro j c hj hc' x hx
              by_cases hjt : j = t
              · subst hjt
                rw [getCell_set_eq _ _ _ (getCell_some_lt _ _ _ hpt)] at hc'
                cases hc'
                rcases List.mem_append.mp hx with hx | hx
                · exact f3 j tc2 hj hpt x hx
                · exact f4 x hx
              · rw [getCell_set_ne _ _ _ _ (fun he => hjt he.symm)] at hc'
                exact f3 j c hj hc' x hx
        · have e : merge_arena (fuel+1) σ t s ow = σ := by
            simp [merge_arena, hgt, hgs, hk]
          rw [e]
          exact ⟨fun j _ => rfl, Nat.le_refl _, hcl⟩

/-- Reading a child list only depends on the reader's value at the
listed pointers. -/
theorem readKidsA_congr (r1 r2 : Arena → Nat → Option Node) (σ1 σ2 : Arena) :
    ∀ l : List Nat, (∀ x ∈ l, r1 σ1 x = r2 σ2 x) →
      readKidsA r1 σ1 l = readKidsA r2 σ2 l := by
  intro l
  induction l with
  | nil => intro _; rfl
  | cons c rest ih =>
    intro h
    simp only [readKidsA]
    rw [h c (by simp), ih (fun x hx => h x (by simp [hx]))]

/-- Reading a subtree only depends on the cells of a pointer-closed set
of indices containing the root. -/
theorem readTreeA_congr (σ σ' : Arena) (Rp : List Nat)
    (hpres : ∀ j ∈ Rp, getCell σ' j = getCell σ j)
    (hclosed : ∀ j ∈ Rp, ∀ c, getCell σ j = some c → ∀ x ∈ c.children, x ∈ Rp) :
    ∀ (fuel : Nat) (j : Nat), j ∈ Rp → readTreeA fuel σ' j = readTreeA fuel σ j := by
  intro fuel
  induction fuel with
  | zero => intro j _; rfl
  | succ fuel ih =>
    intro j hj
    simp only [readTreeA]
    rw [hpres j hj]
    cases hgc : getCell σ j with
    | none => rfl
    | some c =>
      show Option.map (fun ns => Node.mk c.kind c.tag c.value ns)
          (readKidsA (fun a b => readTreeA fuel a b) σ' c.children)
        = Option.map (fun ns => Node.mk c.kind c.tag c.value ns)
          (readKidsA (fun a b => readTreeA fuel a b) σ c.children)
      rw [readKidsA_congr (fun a b => readTreeA fuel a b) (fun a b => readTreeA fuel a b)
        σ' σ c.children (fun x hx => ih x (hclosed j hj c hgc x hx))]

/-- The executable region-closure check implies `RegionClosed`. -/
theorem regionClosedChk_sound (σ : Arena) (R : List Nat) (n0 : Nat)
    (h : regionClosedChk σ R n0 = true) : RegionClosed σ R n0 := by
  intro j c hj hc x hx
  have hjlt : j < σ.length := getCell_some_lt _ _ _ hc
  have h2 := List.all_eq_true.mp h j (List.mem_range.mpr hjlt)
  simp [hc] at h2
  rcases h2 with h2 | h2
  · exact absurd hj h2
  · exact h2 x hx

/-- The executable pointer-closure check implies closure of the index
set under child pointers. -/
theorem ptrClosedChk_sound (σ : Arena) (Rp : List Nat)
    (h : ptrClosedChk σ Rp = true) :
    ∀ j ∈ Rp, ∀ c, getCell σ j = some c → ∀ x ∈ c.children, x ∈ Rp := by
  intro j hj c hc x hx
  have h2 := List.all_eq_true.mp h j hj
  simp [hc] at h2
  exact h2 x hx

end IniSpec

namespace IniSpec

/-- C9: resolving a section's inheritance never mutates the already-built
parent section.  On the heap model, `p.merge_node(child,
p.clone_node(parentBody), false)` — the inheritance-resolution step of
`parser.document` — leaves every cell of the parent's pointer-closed
subtree untouched, so reading the parent's subtree afterwards yields
exactly the tree it held before; only the child's cells and fresh
allocations change. -/
theorem c9_inherit_preserves_parent (fuel fuel2 : Nat) (σ : Arena)
    (child parentBody : Nat) (R Rp : List Nat)
    (hchild : child ∈ R)
    (hRcl : RegionClosed σ R σ.length)
    (hp : parentBody ∈ Rp)
    (hRp : ∀ j ∈ Rp, ∀ c, getCell σ j = some c → ∀ x ∈ c.children, x ∈ Rp)
    (hdisj : ∀ j ∈ Rp, ¬ InR R σ.length j) :
    (∀ j ∈ Rp, getCell (inherit_merge_arena fuel σ child parentBody) j = getCell σ j) ∧
    readTreeA fuel2 (inherit_merge_arena fuel σ child parentBody) parentBody
      = readTreeA fuel2 σ parentBody := by
  obtain ⟨c1l, c1id, c1pres, _⟩ := clone_arena_props fuel σ parentBody
  have hcl1 : RegionClosed (clone_arena fuel σ parentBody).1 R σ.length :=
    clone_preserves_closed (clone_arena fuel) (clone_arena_props fuel) σ parentBody R
      σ.length (Nat.le_refl _) hRcl
  obtain ⟨m1, m2, m3⟩ :=
    merge_arena_frame R σ.length fuel false (clone_arena fuel σ parentBody).1
      child (clone_arena fuel σ parentBody).2 c1l (Or.inl hchild) (Or.inr c1id) hcl1
  have hpres : ∀ j ∈ Rp, getCell (inherit_merge_arena fuel σ child parentBody) j = getCell σ j := by
    intro j hj
    have hnin := hdisj j hj
    have hjlt : j < σ.length := by
      rcases Nat.lt_or_ge j σ.length with h | h
      · exact h
      · exact absurd (Or.inr h) hnin
    exact (m1 j hnin).trans (c1pres j hjlt)
  exact ⟨hpres, readTreeA_congr σ (inherit_merge_arena fuel σ child parentBody) Rp
    hpres hRp fuel2 parentBody hp⟩

theorem c9_inherit_preserves_parent_witness :
    (∀ j ∈ [3, 4, 5, 6, 7], getCell (inherit_merge_arena 4 arenaC9 2 7) j = getCell arenaC9 j) ∧
    readTreeA 4 (inherit_merge_arena 4 arenaC9 2 7) 7 = readTreeA 4 arenaC9 7 :=
  c9_inherit_preserves_parent 4 4 arenaC9 2 7 [0, 1, 2] [3, 4, 5, 6, 7]
    (by decide)
    (regionClosedChk_sound arenaC9 [0, 1, 2] arenaC9.length (by decide))
    (by decide)
    (ptrClosedChk_sound arenaC9 [3, 4, 5, 6, 7] (by decide))
    (by decide)

end IniSpec
